import Mathlib

/-!
Verification development for the `executable-memory` repository
(`packages/em-core/em`): a shallow embedding in Lean 4 of the routine
engine (`em/runner/engine.py`), the safe expression evaluator
(`em/runner/eval.py`), the template renderer (`em/runner/templating.py`),
the state stores (`em/runner/state_store.py`), the prompt models
(`em/models/prompts.py`) and the trace compiler
(`em/compiler/compile_trace.py`), together with proofs and refutations of
the specification's claims about them.

Modelling conventions:
* Python JSON-like values are the inductive `Value` (null, bool, int,
  string, list, string-keyed mapping).  Floating-point values are outside
  the model; none of the verified claims involve them.
* Python `dict`s are insertion-ordered association lists; `ctxSet`
  mirrors `d[k] = v` (update in place, else append).
* A raised Python exception is `PyExc` (class name + message); fallible
  code returns `Except PyExc α`.
* Side effects (tool calls, UDF calls, context writes, state-store
  operations, recovery-advisor consultations, step execution attempts)
  are made observable through an explicit `Effect` trace that records
  exactly the calls the source performs.
-/

namespace EM

/-- JSON-like Python value (`Any` in the source), as produced by
`json.load` / YAML loading: `None`, `bool`, `int`, `str`, `list`, `dict`
with string keys.  Floats are outside the model. -/
inductive Value where
  | null : Value
  | bool (b : Bool) : Value
  | int (n : Int) : Value
  | str (s : String) : Value
  | list (xs : List Value) : Value
  | obj (kvs : List (String × Value)) : Value
deriving Repr

/-- A raised Python exception: class name and message. -/
structure PyExc where
  ty : String
  msg : String
deriving Repr, DecidableEq

/-- A Python `dict[str, Any]`: insertion-ordered association list. -/
abbrev Ctx := List (String × Value)

/-- `d[k] = v` on a Python dict: replace the existing binding in place,
otherwise append at the end. -/
def dictSet {α : Type} : List (String × α) → String → α → List (String × α)
  | [], k, v => [(k, v)]
  | (k', v') :: rest, k, v =>
      if k' = k then (k, v) :: rest else (k', v') :: dictSet rest k v

/-- `d[k] = v` on a Python `dict[str, Any]`. -/
def ctxSet (c : Ctx) (k : String) (v : Value) : Ctx := dictSet c k v

/-- `d.get(k)` on a Python dict. -/
def ctxGet (c : Ctx) (k : String) : Option Value :=
  c.lookup k

/-- Python truthiness of a JSON-like value (`bool(v)`). -/
def pyTruthy : Value → Bool
  | .null => false
  | .bool b => b
  | .int n => n ≠ 0
  | .str s => ¬ s.isEmpty
  | .list xs => ¬ xs.isEmpty
  | .obj kvs => ¬ kvs.isEmpty

/-- `int(b)` — Python bools are numerically 0/1 under `==` and arithmetic. -/
def boolInt (b : Bool) : Int := if b then 1 else 0

mutual

/-- Python `==` on JSON-like values: numeric cross-type equality between
`bool` and `int` (`True == 1`), element-wise equality on lists, and
key-set/value equality on dicts (dict `==` ignores insertion order). -/
def pyEq : Value → Value → Bool
  | .null, .null => true
  | .bool a, .bool b => a == b
  | .bool a, .int n => boolInt a == n
  | .int n, .bool b => n == boolInt b
  | .int a, .int b => a == b
  | .str a, .str b => a == b
  | .list xs, .list ys => pyEqList xs ys
  | .obj xs, .obj ys => xs.length == ys.length && pyEqObj xs ys
  | _, _ => false
termination_by a b => sizeOf a + sizeOf b

/-- Element-wise Python `==` on lists. -/
def pyEqList : List Value → List Value → Bool
  | [], [] => true
  | x :: xs, y :: ys => pyEq x y && pyEqList xs ys
  | _, _ => false
termination_by xs ys => sizeOf xs + sizeOf ys

/-- Every entry of the first dict appears (by key) in the second with an
equal value; with equal lengths and unique keys this is Python dict `==`. -/
def pyEqObj : List (String × Value) → List (String × Value) → Bool
  | [], _ => true
  | (k, v) :: rest, ys => pyEqFind k v ys && pyEqObj rest ys
termination_by xs ys => sizeOf xs + sizeOf ys

/-- Does the dict bind `k` to a value Python-equal to `v`? -/
def pyEqFind : String → Value → List (String × Value) → Bool
  | _, _, [] => false
  | k, v, (k', w) :: rest => if k' = k then pyEq v w else pyEqFind k v rest
termination_by _k v ys => sizeOf v + sizeOf ys

end

/-- `int(v)` when the value is numeric in Python's sense (`bool` coerces). -/
def numVal : Value → Option Int
  | .int n => some n
  | .bool b => some (boolInt b)
  | _ => none

mutual

/-- Python `<` (`operator.lt`) on JSON-like values: numeric, string, and
list comparison; anything else raises `TypeError`. -/
def pyLt : Value → Value → Except PyExc Bool
  | a, b =>
    match numVal a, numVal b with
    | some x, some y => .ok (x < y)
    | _, _ =>
      match a, b with
      | .str x, .str y => .ok (x < y)
      | .list xs, .list ys => pyLtList xs ys
      | _, _ => .error ⟨"TypeError", "'<' not supported between operand types"⟩

/-- CPython sequence `<`: skip the `==`-equal prefix, decide at the first
unequal pair, else compare lengths. -/
def pyLtList : List Value → List Value → Except PyExc Bool
  | [], [] => .ok false
  | [], _ :: _ => .ok true
  | _ :: _, [] => .ok false
  | x :: xs, y :: ys =>
      if pyEq x y then pyLtList xs ys else pyLt x y

end

mutual

/-- Python `<=` (`operator.le`) on JSON-like values. -/
def pyLe : Value → Value → Except PyExc Bool
  | a, b =>
    match numVal a, numVal b with
    | some x, some y => .ok (x ≤ y)
    | _, _ =>
      match a, b with
      | .str x, .str y => .ok (x ≤ y)
      | .list xs, .list ys => pyLeList xs ys
      | _, _ => .error ⟨"TypeError", "'<=' not supported between operand types"⟩

/-- CPython sequence `<=`: skip the `==`-equal prefix, decide at the first
unequal pair, else compare lengths. -/
def pyLeList : List Value → List Value → Except PyExc Bool
  | [], [] => .ok true
  | [], _ :: _ => .ok true
  | _ :: _, [] => .ok false
  | x :: xs, y :: ys =>
      if pyEq x y then pyLeList xs ys else pyLe x y

end

/-- Python `+` (`operator.add`): numbers, string and list concatenation. -/
def pyAdd (a b : Value) : Except PyExc Value :=
  match numVal a, numVal b with
  | some x, some y => .ok (.int (x + y))
  | _, _ =>
    match a, b with
    | .str x, .str y => .ok (.str (x ++ y))
    | .list xs, .list ys => .ok (.list (xs ++ ys))
    | _, _ => .error ⟨"TypeError", "unsupported operand type(s) for +"⟩

/-- Python `-` (`operator.sub`): numbers only. -/
def pySub (a b : Value) : Except PyExc Value :=
  match numVal a, numVal b with
  | some x, some y => .ok (.int (x - y))
  | _, _ => .error ⟨"TypeError", "unsupported operand type(s) for -"⟩

/-- Python `*` (`operator.mul`): numbers, and string/list repetition. -/
def pyMult (a b : Value) : Except PyExc Value :=
  match numVal a, numVal b with
  | some x, some y => .ok (.int (x * y))
  | _, _ =>
    match a, b with
    | .str s, _ =>
      match numVal b with
      | some n => .ok (.str ((List.replicate n.toNat s).foldl (· ++ ·) ""))
      | none => .error ⟨"TypeError", "can't multiply sequence by non-int"⟩
    | _, .str s =>
      match numVal a with
      | some n => .ok (.str ((List.replicate n.toNat s).foldl (· ++ ·) ""))
      | none => .error ⟨"TypeError", "can't multiply sequence by non-int"⟩
    | .list xs, _ =>
      match numVal b with
      | some n => .ok (.list (List.replicate n.toNat xs).flatten)
      | none => .error ⟨"TypeError", "can't multiply sequence by non-int"⟩
    | _, .list xs =>
      match numVal a with
      | some n => .ok (.list (List.replicate n.toNat xs).flatten)
      | none => .error ⟨"TypeError", "can't multiply sequence by non-int"⟩
    | _, _ => .error ⟨"TypeError", "unsupported operand type(s) for *"⟩

/-- Python unary `-` (`operator.neg`): numbers only. -/
def pyNeg (a : Value) : Except PyExc Value :=
  match numVal a with
  | some x => .ok (.int (-x))
  | none => .error ⟨"TypeError", "bad operand type for unary -"⟩

/-- Python `obj[key]`: dict lookup (`KeyError` on a missing key), list and
string indexing with negative-index handling (`IndexError` out of bounds,
`TypeError` for a non-integer index). -/
def pySubscript (obj key : Value) : Except PyExc Value :=
  match obj with
  | .obj kvs =>
    match key with
    | .str k =>
      match kvs.lookup k with
      | some v => .ok v
      | none => .error ⟨"KeyError", k⟩
    | _ => .error ⟨"KeyError", "key not found"⟩
  | .list xs =>
    match numVal key with
    | some n =>
      let i : Int := if n < 0 then n + xs.length else n
      if h : 0 ≤ i ∧ i.toNat < xs.length then .ok (xs.get ⟨i.toNat, h.2⟩)
      else .error ⟨"IndexError", "list index out of range"⟩
    | none => .error ⟨"TypeError", "list indices must be integers"⟩
  | .str s =>
    match numVal key with
    | some n =>
      let cs := s.toList
      let i : Int := if n < 0 then n + cs.length else n
      if h : 0 ≤ i ∧ i.toNat < cs.length then
        .ok (.str (String.mk [cs.get ⟨i.toNat, h.2⟩]))
      else .error ⟨"IndexError", "string index out of range"⟩
    | none => .error ⟨"TypeError", "string indices must be integers"⟩
  | _ => .error ⟨"TypeError", "object is not subscriptable"⟩

/-! ## Safe expression evaluator (`em/runner/eval.py`)

Expressions (`when`, `assert.check`) are represented by their parsed
abstract syntax tree; `ast.parse(expr, mode="eval")` is the host
language's parser and the embedding starts from its output.  Node kinds
not handled by `_eval_node`, and operators missing from `_BINOPS` /
`_UNARY_OPS`, are carried as `unsupported…` constructors naming the node
or operator so the evaluator's error paths are preserved. -/

/-- Comparison operators appearing under `ast.Compare`. -/
inductive CmpOpK where
  | eq | ne | lt | le | gt | ge
  | unsupportedCmp (nm : String)
deriving Repr, DecidableEq

/-- `ast.BoolOp` operators (`and` / `or`). -/
inductive BoolOpK where
  | land | lor
deriving Repr, DecidableEq

/-- `ast.BinOp` operators present in `_BINOPS`, plus the unsupported rest. -/
inductive BinOpK where
  | add | sub | mult
  | unsupportedBin (nm : String)
deriving Repr, DecidableEq

/-- `ast.UnaryOp` operators present in `_UNARY_OPS`, plus the rest. -/
inductive UnaryOpK where
  | lnot | usub
  | unsupportedUnary (nm : String)
deriving Repr, DecidableEq

/-- Parsed Python expression AST, mirroring the node kinds `_eval_node`
dispatches on. -/
inductive PyAst where
  | constant (v : Value)
  | name (id : String)
  | attribute (value : PyAst) (attr : String)
  | subscript (value : PyAst) (slice : PyAst)
  | compare (left : PyAst) (ops : List CmpOpK) (comparators : List PyAst)
  | boolOp (op : BoolOpK) (values : List PyAst)
  | binOp (left : PyAst) (op : BinOpK) (right : PyAst)
  | unaryOp (op : UnaryOpK) (operand : PyAst)
  | call (func : PyAst) (args : List PyAst) (kwargs : List (String × PyAst))
  | ifExp (test : PyAst) (body : PyAst) (orelse : PyAst)
  | unsupportedNode (nm : String)
deriving Repr

/-- A Python callable reachable from the evaluation context (a loaded
user-function): positional and keyword `Value` arguments to a `Value`
result or a raised exception. -/
def PyFn : Type := List Value → List (String × Value) → Except PyExc Value

/-- A value occurring during expression evaluation: a JSON-like value or
a callable placed in the context by `_build_eval_context`. -/
inductive EvalVal where
  | val (v : Value)
  | fn (f : PyFn)

/-- The evaluation context: the run context plus callable bindings. -/
abbrev EvalCtx := List (String × EvalVal)

/-- Python truthiness of an evaluation value (functions are truthy). -/
def evTruthy : EvalVal → Bool
  | .val v => pyTruthy v
  | .fn _ => true

/-- The `lambda a, b: a and b` / `lambda a, b: a or b` entries of
`_BINOPS`: value-returning, both arguments already evaluated. -/
def pyAndOr (op : BoolOpK) (a b : EvalVal) : EvalVal :=
  match op with
  | .land => if evTruthy a then b else a
  | .lor => if evTruthy a then a else b

/-- Apply a comparison operator from `_BINOPS`.  An operator missing from
the table raises `ValueError` before being applied; comparisons touching
a callable are outside the value model. -/
def cmpEval : CmpOpK → EvalVal → EvalVal → Except PyExc Bool
  | .unsupportedCmp nm, _, _ =>
      .error ⟨"ValueError", "Unsupported comparison: " ++ nm⟩
  | .eq, .val a, .val b => .ok (pyEq a b)
  | .ne, .val a, .val b => .ok (!pyEq a b)
  | .lt, .val a, .val b => pyLt a b
  | .le, .val a, .val b => pyLe a b
  | .gt, .val a, .val b => pyLt b a
  | .ge, .val a, .val b => pyLe b a
  | _, _, _ =>
      .error ⟨"TypeError", "comparison on callables is outside the value model"⟩

/-- Apply a binary arithmetic operator from `_BINOPS` (operands already
evaluated, as in the source). -/
def binEval : BinOpK → EvalVal → EvalVal → Except PyExc EvalVal
  | .unsupportedBin nm, _, _ =>
      .error ⟨"ValueError", "Unsupported binary op: " ++ nm⟩
  | .add, .val a, .val b => (pyAdd a b).map .val
  | .sub, .val a, .val b => (pySub a b).map .val
  | .mult, .val a, .val b => (pyMult a b).map .val
  | _, _, _ =>
      .error ⟨"TypeError", "arithmetic on callables is outside the value model"⟩

/-- Convert an evaluation value into a plain `Value` argument for a call
(the engine's user functions consume and produce JSON-like values). -/
def evToVal : EvalVal → Except PyExc Value
  | .val v => .ok v
  | .fn _ => .error ⟨"TypeError", "callable arguments are outside the value model"⟩

mutual

/-- `_eval_node` from `em/runner/eval.py`: recursive evaluation of the
restricted expression grammar.  The `udf` module parameter of the source
is threaded but never consulted there, so it is omitted here; calls
resolve against names in the context only. -/
def evalNode : PyAst → EvalCtx → Except PyExc EvalVal
  | .constant v, _ => .ok (.val v)
  | .name id, ctx =>
      if id = "True" then .ok (.val (.bool true))
      else if id = "False" then .ok (.val (.bool false))
      else if id = "None" then .ok (.val .null)
      else
        match ctx.lookup id with
        | none => .error ⟨"NameError", "Undefined variable: " ++ id⟩
        | some v => .ok v
  | .attribute value _attr, ctx => do
      let _obj ← evalNode value ctx
      -- `getattr` on a JSON-like value or callable resolves only
      -- host-level members, which are outside the value model.
      .error ⟨"AttributeError", "attribute access is outside the value model"⟩
  | .subscript value slice, ctx => do
      let obj ← evalNode value ctx
      let key ← evalNode slice ctx
      match obj, key with
      | .val o, .val k => (pySubscript o k).map .val
      | _, _ => .error ⟨"TypeError", "subscripting callables is outside the value model"⟩
  | .compare left ops comparators, ctx => do
      let l ← evalNode left ctx
      evalCmpChain l ops comparators ctx
  | .boolOp op values, ctx =>
      match values with
      | [] => .error ⟨"IndexError", "list index out of range"⟩
      | v0 :: rest => do
          let acc ← evalNode v0 ctx
          evalBoolChain op acc rest ctx
  | .binOp left op right, ctx => do
      let l ← evalNode left ctx
      let r ← evalNode right ctx
      binEval op l r
  | .unaryOp op operand, ctx => do
      let v ← evalNode operand ctx
      match op with
      | .lnot => .ok (.val (.bool (!evTruthy v)))
      | .usub =>
        match v with
        | .val a => (pyNeg a).map .val
        | .fn _ => .error ⟨"TypeError", "bad operand type for unary -"⟩
      | .unsupportedUnary nm => .error ⟨"ValueError", "Unsupported unary op: " ++ nm⟩
  | .call func args kwargs, ctx => do
      let f ← evalNode func ctx
      let argVals ← evalArgs args ctx
      let kwargVals ← evalKwargs kwargs ctx
      match f with
      | .fn fn => (fn argVals kwargVals).map .val
      | .val _ => .error ⟨"TypeError", "object is not callable"⟩
  | .ifExp test body orelse, ctx => do
      let t ← evalNode test ctx
      if evTruthy t then evalNode body ctx else evalNode orelse ctx
  | .unsupportedNode nm, _ =>
      .error ⟨"ValueError", "Unsupported expression node: " ++ nm⟩
termination_by node _ => sizeOf node

/-- The `ast.Compare` chain loop: evaluate each comparator in turn,
short-circuiting to `False` at the first failing comparison (`zip` stops
at the shorter list, as in the source). -/
def evalCmpChain (left : EvalVal) : List CmpOpK → List PyAst → EvalCtx →
    Except PyExc EvalVal
  | [], _, _ => .ok (.val (.bool true))
  | _, [], _ => .ok (.val (.bool true))
  | op :: ops, c :: cs, ctx => do
      let right ← evalNode c ctx
      let b ← cmpEval op left right
      if b then evalCmpChain right ops cs ctx else .ok (.val (.bool false))
termination_by _ops cs _ => sizeOf cs

/-- The `ast.BoolOp` loop: `result = op_fn(result, _eval_node(val))` over
the remaining operands — every operand is evaluated (no short-circuit). -/
def evalBoolChain (op : BoolOpK) (acc : EvalVal) :
    List PyAst → EvalCtx → Except PyExc EvalVal
  | [], _ => .ok acc
  | v :: rest, ctx => do
      let rv ← evalNode v ctx
      evalBoolChain op (pyAndOr op acc rv) rest ctx
termination_by vs _ => sizeOf vs

/-- Evaluate positional call arguments in order. -/
def evalArgs : List PyAst → EvalCtx → Except PyExc (List Value)
  | [], _ => .ok []
  | a :: rest, ctx => do
      let v ← evalNode a ctx
      let pv ← evToVal v
      let vs ← evalArgs rest ctx
      .ok (pv :: vs)
termination_by as _ => sizeOf as

/-- Evaluate keyword call arguments in order. -/
def evalKwargs : List (String × PyAst) → EvalCtx → Except PyExc (List (String × Value))
  | [], _ => .ok []
  | (k, a) :: rest, ctx => do
      let v ← evalNode a ctx
      let pv ← evToVal v
      let vs ← evalKwargs rest ctx
      .ok ((k, pv) :: vs)
termination_by as _ => sizeOf as

end

/-- `safe_eval` from `em/runner/eval.py`, with `ast.parse` (the host
parser) elided: evaluate a parsed restricted expression against a
context.  The `udf_module` argument of the source is never consulted by
`_eval_node` and is dropped. -/
def safe_eval (expr : PyAst) (context : EvalCtx) : Except PyExc EvalVal :=
  evalNode expr context

/-! ## Template rendering (`em/runner/templating.py`) -/

/-- The loaded `udf.py` module: public functions by name (the only module
members the engine consumes). -/
abbrev UdfModule := List (String × PyFn)

/-- `\s` on ASCII text (the identifiers and whitespace the claims touch
are ASCII; Unicode word characters are outside the model). -/
def isPySpace (c : Char) : Bool :=
  c = ' ' || c = '\t' || c = '\n' || c = '\r' || c = '\x0b' || c = '\x0c'

/-- `\w` on ASCII text. -/
def isPyWord (c : Char) : Bool :=
  c.isAlphanum || c = '_'

/-- `_SIMPLE_VAR_RE.match(value)`: does the whole string match
`^\x7b\x7b\s*(\w+)\s*\x7d\x7d$`?  Returns the captured identifier. -/
def matchSimpleVarChars : List Char → Option String
  | '\x7b' :: '\x7b' :: rest =>
      let afterWs := rest.dropWhile isPySpace
      let wordCs := afterWs.takeWhile isPyWord
      let afterWord := afterWs.dropWhile isPyWord
      if wordCs.isEmpty then none
      else
        match afterWord.dropWhile isPySpace with
        | ['\x7d', '\x7d'] => some (String.mk wordCs)
        | _ => none
  | _ => none

/-- `_SIMPLE_VAR_RE.match` on a string. -/
def matchSimpleVar (s : String) : Option String :=
  matchSimpleVarChars s.toList

/-- Does the character list contain the needle as a contiguous run? -/
def hasInfix (needle : List Char) : List Char → Bool
  | [] => needle.isEmpty
  | c :: rest => needle.isPrefixOf (c :: rest) || hasInfix needle rest

/-- `needle in haystack` on strings. -/
def strContains (haystack needle : String) : Bool :=
  hasInfix needle.toList haystack.toList

mutual

/-- `str(v)` for a JSON-like value (as interpolated into a rendered
template). -/
def pyStr : Value → String
  | .null => "None"
  | .bool b => if b then "True" else "False"
  | .int n => toString n
  | .str s => s
  | .list xs => "[" ++ pyStrList xs ++ "]"
  | .obj kvs => "\x7b" ++ pyStrObj kvs ++ "\x7d"
termination_by v => 2 * sizeOf v

/-- `repr(v)` as used for elements inside containers (strings quoted). -/
def pyStrElem : Value → String
  | .str s => "\x27" ++ s ++ "\x27"
  | v => pyStr v
termination_by v => 2 * sizeOf v + 1

/-- Comma-separated `repr`s of list elements. -/
def pyStrList : List Value → String
  | [] => ""
  | [x] => pyStrElem x
  | x :: xs => pyStrElem x ++ ", " ++ pyStrList xs
termination_by xs => 2 * sizeOf xs

/-- Comma-separated `repr` pairs of dict entries. -/
def pyStrObj : List (String × Value) → String
  | [] => ""
  | [(k, v)] => "\x27" ++ k ++ "\x27: " ++ pyStrElem v
  | (k, v) :: kvs => "\x27" ++ k ++ "\x27: " ++ pyStrElem v ++ ", " ++ pyStrObj kvs
termination_by kvs => 2 * sizeOf kvs

end

/-- Modelled from the spec: the Jinja2 environment with
`undefined=jinja2.StrictUndefined` that `render_value` builds for the
general template path — code of an external library, absent from the
repository.  Per the spec, template interpolation substitutes variables
from the context, an undefined variable raises (no silent empty
substitution), and the result is a string.  The model covers plain
`\x7b\x7b identifier \x7d\x7d` blocks — the only template fragment the
theorems evaluate; richer template expressions (attribute access, calls,
conditionals, loops) surface as a `TemplateError`. -/
def jinjaScan (ctx : Ctx) : List Char → Except PyExc String
  | [] => .ok ""
  | '\x7b' :: '\x7b' :: rest =>
      let afterWs := rest.dropWhile isPySpace
      let wordCs := afterWs.takeWhile isPyWord
      let afterWord := (afterWs.dropWhile isPyWord).dropWhile isPySpace
      if wordCs.isEmpty then .error ⟨"TemplateError", "unsupported template expression"⟩
      else if afterWord.take 2 = ['\x7d', '\x7d'] then
        match ctxGet ctx (String.mk wordCs) with
        | none => .error ⟨"UndefinedError", String.mk wordCs ++ " is undefined"⟩
        | some v => do
            let restStr ← jinjaScan ctx (afterWord.drop 2)
            .ok (pyStr v ++ restStr)
      else .error ⟨"TemplateError", "unsupported template expression"⟩
  | c :: rest => do
      let restStr ← jinjaScan ctx rest
      .ok (String.mk [c] ++ restStr)
termination_by cs => cs.length
decreasing_by
  · have h1 : (rest.dropWhile isPySpace).length ≤ rest.length :=
      (List.dropWhile_sublist _).length_le
    have h2 : ((rest.dropWhile isPySpace).dropWhile isPyWord).length ≤
        (rest.dropWhile isPySpace).length :=
      (List.dropWhile_sublist _).length_le
    have h3 : (((rest.dropWhile isPySpace).dropWhile isPyWord).dropWhile isPySpace).length ≤
        ((rest.dropWhile isPySpace).dropWhile isPyWord).length :=
      (List.dropWhile_sublist _).length_le
    simp only [List.length_drop, List.length_cons] at *
    omega
  · simp only [List.length_cons]
    omega

mutual

/-- `render_value` from `em/runner/templating.py`: recursively render
Jinja2 templates in a value tree.  A string that is exactly a simple
variable reference (`_SIMPLE_VAR_RE`) whose identifier is bound returns
the raw context value; other brace-bearing strings go through the Jinja2
environment (`jinjaScan`); dicts and lists are traversed recursively;
every other value passes through.  The `udf` proxy bound into the Jinja2
environment is reachable only through template expressions outside the
`jinjaScan` model. -/
def render_value (value : Value) (context : Ctx) (udf_module : Option UdfModule) :
    Except PyExc Value :=
  match value with
  | .str s =>
      if strContains s "\x7b\x7b" && strContains s "\x7d\x7d" then
        match matchSimpleVar s with
        | some var_name =>
            match ctxGet context var_name with
            | some v => .ok v
            | none => (jinjaScan context s.toList).map .str
        | none => (jinjaScan context s.toList).map .str
      else .ok (.str s)
  | .obj kvs => do
      let rendered ← renderObjEntries kvs context udf_module
      .ok (.obj rendered)
  | .list xs => do
      let rendered ← renderListElems xs context udf_module
      .ok (.list rendered)
  | v => .ok v
termination_by 2 * sizeOf value

/-- Render each entry of a dict in order. -/
def renderObjEntries (kvs : List (String × Value)) (context : Ctx)
    (udf_module : Option UdfModule) : Except PyExc (List (String × Value)) :=
  match kvs with
  | [] => .ok []
  | (k, v) :: rest => do
      let rv ← render_value v context udf_module
      let rrest ← renderObjEntries rest context udf_module
      .ok ((k, rv) :: rrest)
termination_by 2 * sizeOf kvs + 1

/-- Render each element of a list in order. -/
def renderListElems (xs : List Value) (context : Ctx)
    (udf_module : Option UdfModule) : Except PyExc (List Value) :=
  match xs with
  | [] => .ok []
  | v :: rest => do
      let rv ← render_value v context udf_module
      let rrest ← renderListElems rest context udf_module
      .ok (rv :: rrest)
termination_by 2 * sizeOf xs + 1

end

/-! ## Data model (`em/models/routine.py`, `em/models/results.py`,
`em/models/prompts.py`) and supporting services -/

/-- `PromptFieldType` from `em/models/routine.py`. -/
inductive PromptFieldType where
  | text | select | confirm | number
deriving Repr, DecidableEq

/-- `PromptField`: a single input field of a `prompt.user` step. -/
structure PromptField where
  name : String
  label : String
  type : PromptFieldType := .text
  required : Bool := true
  default : Value := .null
  options : Option (List String) := none
deriving Repr

/-- `PromptDef`: definition for a `prompt.user` step. -/
structure PromptDef where
  message : String
  fields : List PromptField
deriving Repr

/-- `ToolDef`: external tool declaration (schemas are JSON documents). -/
structure ToolDef where
  name : String
  description : Option String := none
  args_schema : Option Value := none
  result_schema : Option Value := none
deriving Repr

/-- `StepType` from `em/models/routine.py`. -/
inductive StepType where
  | tool_call | udf_call | assert_ | prompt_user | return_
deriving Repr, DecidableEq

/-- `Step`: a single routine step.  The expression-valued fields `check`
and `when` are represented by their parsed ASTs (an empty-string `when`
or `check` is falsy in Python and indistinguishable from an absent one at
its use sites, so `none` covers it). -/
structure Step where
  id : String
  type : StepType
  description : Option String := none
  tool : Option String := none
  args : Option (List (String × Value)) := none
  function : Option String := none
  save_as : Option String := none
  check : Option PyAst := none
  message : Option String := none
  prompt : Option PromptDef := none
  value : Value := .null
  when : Option PyAst := none
deriving Repr

/-- `Routine` from `em/models/routine.py`.  Note: `steps` carries no
non-emptiness constraint in the source model. -/
structure Routine where
  version : String := "1"
  name : String
  description : Option String := none
  tools : List ToolDef := []
  input_schema : Option Value := none
  output_schema : Option Value := none
  steps : List Step
deriving Repr

/-- `RunStatus` from `em/models/results.py`. -/
inductive RunStatus where
  | ok | failed | needs_input
deriving Repr, DecidableEq

/-- `FailureReport` from `em/models/results.py`. -/
structure FailureReport where
  step_id : String
  error_type : String
  message : String
  context : Ctx := []
deriving Repr

/-- `RunResult` from `em/models/results.py` (`output: Any = None`). -/
structure RunResult where
  run_id : String
  status : RunStatus
  output : Value := .null
  failure : Option FailureReport := none
  pending_prompt : Option String := none
  context : Ctx := []
deriving Repr

/-- `PromptAnswers` from `em/models/prompts.py`. -/
structure PromptAnswers where
  values : List (String × Value) := []
deriving Repr

/-- `PromptAnswers.validate_against`: missing-required errors in field
order, then per-answer errors in answer order (unknown field, confirm
must be `bool`, number must be numeric — Python `bool` is an `int`
instance and passes, select value must be among the options). -/
def PromptAnswers.validate_against (answers : PromptAnswers) (prompt : PromptDef) :
    List String :=
  let field_map := prompt.fields.foldl (fun m f => dictSet m f.name f) []
  let missingErrs := prompt.fields.filterMap (fun f =>
    if f.required && (answers.values.lookup f.name).isNone then
      some ("Missing required field: " ++ f.name)
    else none)
  let valErrs := answers.values.filterMap (fun kv =>
    match field_map.lookup kv.1 with
    | none => some ("Unknown field: " ++ kv.1)
    | some f =>
      match f.type with
      | .confirm =>
        match kv.2 with
        | .bool _ => none
        | _ => some ("Field " ++ "\x27" ++ kv.1 ++ "\x27" ++ " must be a boolean")
      | .number =>
        match kv.2 with
        | .int _ => none
        | .bool _ => none
        | _ => some ("Field " ++ "\x27" ++ kv.1 ++ "\x27" ++ " must be a number")
      | .select =>
        match f.options with
        | some opts =>
          if !opts.isEmpty && !opts.any (fun o => pyEq kv.2 (.str o)) then
            some ("Field " ++ "\x27" ++ kv.1 ++ "\x27" ++ " must be one of: " ++
              String.intercalate ", " opts)
          else none
        | none => none
      | .text => none)
  missingErrs ++ valErrs

/-- Auxiliary: a value found by `List.lookup` is structurally smaller
than the association list containing it. -/
theorem lookup_sizeOf_lt {α : Type} [SizeOf α] (k : String) :
    ∀ (kvs : List (String × α)) (v : α), kvs.lookup k = some v → sizeOf v < sizeOf kvs := by
  intro kvs
  induction kvs with
  | nil => intro v h; simp [List.lookup] at h
  | cons kv rest ih =>
    intro v h
    rcases kv with ⟨a, b⟩
    rw [List.lookup] at h
    by_cases hk : k == a
    · rw [hk] at h
      cases h
      simp
      omega
    · rw [Bool.of_not_eq_true hk] at h
      have := ih v h
      simp
      omega

mutual

/-- Modelled from the spec: `validate_json` (`em/utils/jsonschema.py`)
delegates to the external `jsonschema` library, absent from the
repository.  Per the spec, the schema language is the subset
`type` / `properties` / `required` / `items`; the model checks exactly
these and returns a list of error messages. -/
def validate_json (inst0 : Value) (schema : Value) : List String :=
  match schema with
  | .obj kvs =>
      let typeErrs :=
        match kvs.lookup "type" with
        | some (.str t) =>
          let okTy :=
            match t, inst0 with
            | "object", .obj _ => true
            | "array", .list _ => true
            | "string", .str _ => true
            | "integer", .int _ => true
            | "number", .int _ => true
            | "boolean", .bool _ => true
            | "null", .null => true
            | _, _ => false
          if okTy then [] else ["value is not of type " ++ "\x27" ++ t ++ "\x27"]
        | _ => []
      let requiredErrs :=
        match kvs.lookup "required", inst0 with
        | some (.list names), .obj inst =>
          names.filterMap (fun nm =>
            match nm with
            | .str n =>
              if (inst.lookup n).isNone then
                some ("\x27" ++ n ++ "\x27" ++ " is a required property")
              else none
            | _ => none)
        | _, _ => []
      let propErrs :=
        match hp : kvs.lookup "properties", inst0 with
        | some (.obj props), .obj inst => validateProps props inst
        | _, _ => []
      let itemErrs :=
        match hi : kvs.lookup "items", inst0 with
        | some itemSchema, .list xs => validateItems itemSchema xs
        | _, _ => []
      typeErrs ++ requiredErrs ++ propErrs ++ itemErrs
  | _ => []
termination_by (sizeOf schema, 0)
decreasing_by
  · have h := lookup_sizeOf_lt "properties" kvs _ hp
    simp at h ⊢
    omega
  · have h := lookup_sizeOf_lt "items" kvs _ hi
    simp at h ⊢
    omega

/-- Validate each declared property present on the instance. -/
def validateProps (props : List (String × Value)) (inst : List (String × Value)) :
    List String :=
  match props with
  | [] => []
  | (k, sub) :: rest =>
    let here :=
      match inst.lookup k with
      | some v => validate_json v sub
      | none => []
    here ++ validateProps rest inst
termination_by (sizeOf props, 1)

/-- Validate every array element against the `items` schema. -/
def validateItems (itemSchema : Value) (xs : List Value) : List String :=
  match xs with
  | [] => []
  | x :: rest => validate_json x itemSchema ++ validateItems itemSchema rest
termination_by (sizeOf itemSchema, xs.length + 1)

end

/-- A registered tool (`_ToolEntry` from `em/runner/tools.py`): the
callable consumes keyword arguments (`fn(**args)`). -/
structure ToolEntry where
  fn : List (String × Value) → Except PyExc Value
  args_schema : Option Value := none
  result_schema : Option Value := none

/-- `ToolRegistry`: name-keyed directory of tools. -/
abbrev ToolRegistry := List (String × ToolEntry)

/-- `ToolRegistry.call` from `em/runner/tools.py`: look up the entry
(`KeyError` if unregistered), validate args against a truthy
`args_schema`, invoke the callable, validate the result against a truthy
`result_schema`. -/
def ToolRegistry.call (reg : ToolRegistry) (name : String)
    (args : List (String × Value)) : Except PyExc Value := do
  match reg.lookup name with
  | none => .error ⟨"KeyError", "Tool not registered: " ++ name⟩
  | some entry => do
    match entry.args_schema with
    | some s =>
      if pyTruthy s then
        let errors := validate_json (.obj args) s
        if !errors.isEmpty then
          .error ⟨"ValueError", "Tool " ++ "\x27" ++ name ++ "\x27" ++
            " args validation failed: " ++ String.intercalate "; " errors⟩
        else .ok ()
      else .ok ()
    | none => .ok ()
    let result ← entry.fn args
    match entry.result_schema with
    | some s =>
      if pyTruthy s then
        let errors := validate_json result s
        if !errors.isEmpty then
          .error ⟨"ValueError", "Tool " ++ "\x27" ++ name ++ "\x27" ++
            " result validation failed: " ++ String.intercalate "; " errors⟩
        else .ok ()
      else .ok ()
    | none => .ok ()
    .ok result

/-- `RunState` from `em/runner/state_store.py`: the pause snapshot. -/
structure RunState where
  run_id : String
  routine_dir : String
  step_index : Nat
  context : Ctx
  pending_step_id : String
deriving Repr

/-- The observable content of a state store (`InMemoryStateStore`'s dict;
also `FileStateStore`'s directory between crashes): run id → snapshot. -/
abbrev Store := List (String × RunState)

/-- `save(state)`: bind `state.run_id` to the snapshot. -/
def storeSave (store : Store) (state : RunState) : Store :=
  dictSet store state.run_id state

/-- `load(run_id)`. -/
def storeLoad (store : Store) (run_id : String) : Option RunState :=
  store.lookup run_id

/-- `delete(run_id)`: remove the binding if present (no error when absent). -/
def storeDelete (store : Store) (run_id : String) : Store :=
  store.filter (fun kv => kv.1 ≠ run_id)

/-! ## Routine engine (`em/runner/engine.py`) -/

/-- A loaded routine package (`RoutinePackage` from `em/utils/yaml_io.py`):
the routine document plus the optional `udf.py` module (schema files are
not consumed by the engine paths modelled here). -/
structure RoutinePackage where
  routine : Routine
  udf_module : Option UdfModule := none

/-- `RoutinePackage.get_udf`: resolve a user function by name, raising
`ValueError` when the module is absent or the name is not defined. -/
def RoutinePackage.get_udf (pkg : RoutinePackage) (name : String) :
    Except PyExc (List (String × Value) → Except PyExc Value) :=
  match pkg.udf_module with
  | none => .error ⟨"ValueError", "No UDF module loaded — cannot find " ++
      "\x27" ++ name ++ "\x27"⟩
  | some m =>
    match m.lookup name with
    | none => .error ⟨"ValueError", "UDF " ++ "\x27" ++ name ++ "\x27" ++
        " not found in udf.py"⟩
    | some f => .ok (fun args => f [] args)

/-- Observable side effects of an engine invocation, recording exactly
the external calls the source performs: registry/tool invocations, UDF
invocations, `save_as` context writes, state-store operations, recovery
adviser consultations and step execution attempts (`_run_step` entries,
tagged with the step's index and id). -/
inductive Effect where
  | toolCall (name : String) (args : List (String × Value))
  | udfCall (name : String) (args : List (String × Value))
  | ctxWrite (key : String) (v : Value)
  | storeSaveOp (run_id : String)
  | storeDeleteOp (run_id : String)
  | advisorCall (idx : Nat) (step_id : String)
  | attempt (idx : Nat) (step_id : String)
deriving Repr

/-- Python `fix.get("strategy") == "literal"`: true only for an equal
string value. -/
def strategyIs (v : Option Value) (s : String) : Bool :=
  match v with
  | some (.str t) => t = s
  | _ => false

/-- Python truthiness of the optional `save_as` / string fields
(`if step.save_as:` — `None` and `""` are both falsy). -/
def saveTruthy : Option String → Bool
  | none => false
  | some s => ¬ s.isEmpty

/-- `_build_eval_context`: the run context plus every public function of
the UDF module bound at top level (names starting with `_` excluded; the
module entries are exactly its functions in this model). -/
def _build_eval_context (context : Ctx) (pkg : RoutinePackage) : EvalCtx :=
  let base : EvalCtx := context.map (fun kv => (kv.1, EvalVal.val kv.2))
  match pkg.udf_module with
  | none => base
  | some m =>
      m.foldl (fun acc kv =>
        if kv.1.startsWith "_" then acc else dictSet acc kv.1 (EvalVal.fn kv.2)) base

/-- The recovery callback `auto_fix_fn(step, exc, context, routine)`.
It returns an arbitrary Python object or `None`; a callback that raises
is treated as returning `None` by the engine and is folded into `none`
here. -/
def AutoFixFn : Type := Step → PyExc → Ctx → Routine → Option Value

/-- `_exec_tool_call`: render the args dict, then call the registry.
Returns the outcome together with the effects produced (the registry
invocation is recorded once the rendered call is issued). -/
def _exec_tool_call (step : Step) (context : Ctx) (pkg : RoutinePackage)
    (tool_registry : ToolRegistry) : Except PyExc Value × List Effect :=
  match renderObjEntries (step.args.getD []) context pkg.udf_module with
  | .error e => (.error e, [])
  | .ok rendered_args =>
      let name := step.tool.getD "None"
      (ToolRegistry.call tool_registry name rendered_args,
       [.toolCall name rendered_args])

/-- `_exec_udf_call`: resolve the function, render the args dict, invoke
with keyword arguments. -/
def _exec_udf_call (step : Step) (context : Ctx) (pkg : RoutinePackage) :
    Except PyExc Value × List Effect :=
  match pkg.get_udf (step.function.getD "") with
  | .error e => (.error e, [])
  | .ok fn =>
    match renderObjEntries (step.args.getD []) context pkg.udf_module with
    | .error e => (.error e, [])
    | .ok rendered_args =>
        (fn rendered_args, [.udfCall (step.function.getD "") rendered_args])

/-- `_exec_assert`: evaluate `check`; a falsy result raises
`AssertionError` with `step.message` or the stock message (the source
interpolates the original expression text, which the AST model does not
retain). -/
def _exec_assert (step : Step) (context : Ctx) (pkg : RoutinePackage) :
    Except PyExc Unit :=
  match step.check with
  | none => .error ⟨"TypeError", "expected string, got NoneType"⟩
  | some check => do
    let result ← safe_eval check (_build_eval_context context pkg)
    if evTruthy result then .ok ()
    else .error ⟨"AssertionError",
      step.message.getD "Assertion failed: <check expression>"⟩

/-- Outcome of `_run_step`: normal completion with the updated context,
a `_StepResult` carrying a `RunResult` (prompt pause or return), or a
raised exception.  Each outcome carries the effects produced. -/
inductive StepExec where
  | ok (ctx' : Ctx) (effects : List Effect)
  | result (r : RunResult) (store' : Store) (effects : List Effect)
  | err (e : PyExc) (effects : List Effect)

/-- `_run_step` from `em/runner/engine.py`: execute a single step.
`tool.call` / `udf.call` write their result to a truthy `save_as`;
`assert` raises on falsy; `prompt.user` saves a snapshot and yields the
`needs_input` result; `return` renders its value and yields the `ok`
result. -/
def _run_step (step : Step) (context : Ctx) (pkg : RoutinePackage)
    (tool_registry : ToolRegistry) (state_store : Store) (routine_dir : String)
    (run_id : String) (step_index : Nat) : StepExec :=
  match step.type with
  | .tool_call =>
    match _exec_tool_call step context pkg tool_registry with
    | (.error e, effs) => .err e effs
    | (.ok result, effs) =>
      if saveTruthy step.save_as then
        let k := step.save_as.getD ""
        .ok (ctxSet context k result) (effs ++ [.ctxWrite k result])
      else .ok context effs
  | .udf_call =>
    match _exec_udf_call step context pkg with
    | (.error e, effs) => .err e effs
    | (.ok result, effs) =>
      if saveTruthy step.save_as then
        let k := step.save_as.getD ""
        .ok (ctxSet context k result) (effs ++ [.ctxWrite k result])
      else .ok context effs
  | .assert_ =>
    match _exec_assert step context pkg with
    | .error e => .err e []
    | .ok _ => .ok context []
  | .prompt_user =>
    let state : RunState :=
      ⟨run_id, routine_dir, step_index, context, step.id⟩
    .result ⟨run_id, .needs_input, .null, none, some step.id, context⟩
      (storeSave state_store state) [.storeSaveOp run_id]
  | .return_ =>
    match render_value step.value context pkg.udf_module with
    | .error e => .err e []
    | .ok output =>
      .result ⟨run_id, .ok, output, none, none, context⟩ state_store []

/-- Prepend effects onto an engine outcome. -/
def prependEffs (effs : List Effect) :
    RunResult × Store × List Effect → RunResult × Store × List Effect
  | (r, store, effs') => (r, store, effs ++ effs')

/-- The loop body of `_execute_steps` from `em/runner/engine.py`, over
the remaining `(index, step)` pairs: evaluate the `when` guard (falsy
skips the step, an evaluator error aborts with `ConditionError`), run
the step, and on an exception consult the optional recovery callback —
`modify_args` with a dict `new_args` re-runs the patched step once and
aborts if that also fails; `skip` binds `default_value` to a truthy
`save_as` and continues; anything else aborts with the original
exception. -/
def execSteps (pkg : RoutinePackage) (run_id : String)
    (tool_registry : ToolRegistry) (routine_dir : String)
    (auto_fix_fn : Option AutoFixFn) :
    List (Nat × Step) → Ctx → Store → RunResult × Store × List Effect
  | [], context, store =>
      (⟨run_id, .ok, .obj context, none, none, []⟩, store, [])
  | (i, step) :: rest, context, store =>
    let guard : Except PyExc Bool :=
      match step.when with
      | none => .ok true
      | some w =>
        match safe_eval w (_build_eval_context context pkg) with
        | .ok v => .ok (evTruthy v)
        | .error e => .error e
    match guard with
    | .error exc =>
        (⟨run_id, .failed, .null,
          some ⟨step.id, "ConditionError",
            "Error evaluating " ++ "\x27" ++ "when" ++ "\x27" ++ " condition: " ++ exc.msg,
            context⟩, none, []⟩, store, [])
    | .ok cond =>
      if !cond then
        execSteps pkg run_id tool_registry routine_dir auto_fix_fn rest context store
      else
        match _run_step step context pkg tool_registry store routine_dir run_id i with
        | .ok ctx' effs =>
            prependEffs (.attempt i step.id :: effs)
              (execSteps pkg run_id tool_registry routine_dir auto_fix_fn rest ctx' store)
        | .result r store' effs => (r, store', .attempt i step.id :: effs)
        | .err exc effs =>
          let attempt1 : List Effect := .attempt i step.id :: effs
          let fixAdv : Option Value × List Effect :=
            match auto_fix_fn with
            | none => (none, [])
            | some f => (f step exc context pkg.routine, [.advisorCall i step.id])
          let failHere : RunResult × Store × List Effect :=
            (⟨run_id, .failed, .null,
              some ⟨step.id, exc.ty, exc.msg, context⟩, none, []⟩,
             store, attempt1 ++ fixAdv.2)
          match fixAdv.1 with
          | some (.obj fixDict) =>
            let strategy := fixDict.lookup "strategy"
            if strategyIs strategy "modify_args" then
              match fixDict.lookup "new_args" with
              | some (.obj new_args) =>
                let patched := { step with args := some new_args }
                match _run_step patched context pkg tool_registry store routine_dir run_id i with
                | .ok ctx' effs2 =>
                    prependEffs (attempt1 ++ fixAdv.2 ++ .attempt i step.id :: effs2)
                      (execSteps pkg run_id tool_registry routine_dir auto_fix_fn rest ctx' store)
                | .result r store' effs2 =>
                    (r, store', attempt1 ++ fixAdv.2 ++ .attempt i step.id :: effs2)
                | .err retry_exc effs2 =>
                    (⟨run_id, .failed, .null,
                      some ⟨step.id, retry_exc.ty, retry_exc.msg, context⟩, none, []⟩,
                     store, attempt1 ++ fixAdv.2 ++ .attempt i step.id :: effs2)
              | _ => failHere
            else if strategyIs strategy "skip" then
              let default_value := (fixDict.lookup "default_value").getD .null
              if saveTruthy step.save_as then
                let k := step.save_as.getD ""
                prependEffs (attempt1 ++ fixAdv.2 ++ [.ctxWrite k default_value])
                  (execSteps pkg run_id tool_registry routine_dir auto_fix_fn rest
                    (ctxSet context k default_value) store)
              else
                prependEffs (attempt1 ++ fixAdv.2)
                  (execSteps pkg run_id tool_registry routine_dir auto_fix_fn rest context store)
            else failHere
          | _ => failHere

/-- `_execute_steps`: run from `start_index` to the end of the step list. -/
def _execute_steps (pkg : RoutinePackage) (run_id : String) (context : Ctx)
    (start_index : Nat) (tool_registry : ToolRegistry) (state_store : Store)
    (routine_dir : String) (auto_fix_fn : Option AutoFixFn := none) :
    RunResult × Store × List Effect :=
  execSteps pkg run_id tool_registry routine_dir auto_fix_fn
    (pkg.routine.steps.enum.drop start_index) context state_store

/-- The filesystem as seen by `RoutinePackage(routine_dir)`: a directory
path resolves to a loaded package, or to the exception that loading
raises (`FileNotFoundError` for a missing `routine.yaml`, a YAML or
validation error for a malformed one). -/
def DirEnv : Type := String → Except PyExc RoutinePackage

/-- `run_routine` from `em/runner/engine.py`.  `run_id` stands for the
generated UUID and `state_store` for the provided store (the source
substitutes a fresh `InMemoryStateStore` when none is given — pass `[]`).
`RoutinePackage(routine_dir)` is evaluated outside any handler, so a
load failure propagates as `.error`. -/
def run_routine (dirs : DirEnv) (routine_dir : String) (input_data : Ctx := [])
    (tool_registry : Option ToolRegistry := none) (state_store : Store := [])
    (run_id : String := "run-0") (auto_fix_fn : Option AutoFixFn := none) :
    Except PyExc (RunResult × Store × List Effect) := do
  let pkg ← dirs routine_dir
  let context : Ctx := input_data
  .ok (_execute_steps pkg run_id context 0 (tool_registry.getD [])
    state_store routine_dir auto_fix_fn)

/-- `resume_run` from `em/runner/engine.py`: load the snapshot (absent →
`StateNotFound` failure), reload the package (a load failure propagates),
find the pending step by id and require it to be a `prompt.user`
(`InvalidState` otherwise), validate the answers (`ValidationError` on
mismatch), bind the answers into a truthy `save_as` or `_prompt_answers`,
delete the snapshot, and continue at `step_index + 1` with no recovery
callback. -/
def resume_run (dirs : DirEnv) (run_id : String) (answers : PromptAnswers)
    (state_store : Store) (tool_registry : Option ToolRegistry := none) :
    Except PyExc (RunResult × Store × List Effect) :=
  match storeLoad state_store run_id with
  | none =>
      .ok (⟨run_id, .failed, .null,
        some ⟨"", "StateNotFound", "No saved state for run_id=" ++ run_id, []⟩,
        none, []⟩, state_store, [])
  | some state => do
    let pkg ← dirs state.routine_dir
    match pkg.routine.steps.find? (fun s => s.id = state.pending_step_id) with
    | none =>
        .ok (⟨run_id, .failed, .null,
          some ⟨state.pending_step_id, "InvalidState",
            "Pending step is not a prompt.user step", []⟩, none, []⟩,
          state_store, [])
    | some pending_step =>
      match pending_step.prompt with
      | none =>
          .ok (⟨run_id, .failed, .null,
            some ⟨state.pending_step_id, "InvalidState",
              "Pending step is not a prompt.user step", []⟩, none, []⟩,
            state_store, [])
      | some prompt =>
        let validation_errors := answers.validate_against prompt
        if !validation_errors.isEmpty then
          .ok (⟨run_id, .failed, .null,
            some ⟨state.pending_step_id, "ValidationError",
              String.intercalate "; " validation_errors, []⟩, none, []⟩,
            state_store, [])
        else
          let context :=
            if saveTruthy pending_step.save_as then
              ctxSet state.context (pending_step.save_as.getD "") (.obj answers.values)
            else
              ctxSet state.context "_prompt_answers" (.obj answers.values)
          let store' := storeDelete state_store run_id
          .ok (prependEffs [.storeDeleteOp run_id]
            (_execute_steps pkg run_id context (state.step_index + 1)
              (tool_registry.getD []) store' state.routine_dir))

/-! ## Trace model (`em/models/trace.py`) and compiler
(`em/compiler/compile_trace.py`) -/

/-- `TraceApp`. -/
structure TraceApp where
  name : String
  version : Option String := none
deriving Repr

/-- `TraceMission`. -/
structure TraceMission where
  goal : String
  input_summary : Option (List (String × Value)) := none
deriving Repr

/-- `TraceEventType`. -/
inductive TraceEventType where
  | tool_call | udf_call | approval
deriving Repr, DecidableEq

/-- `TraceEvent` (`result: Any = None` — `none` stands for Python `None`). -/
structure TraceEvent where
  type : TraceEventType
  seq : Int
  tool : Option String := none
  function : Option String := none
  args : List (String × Value) := []
  result : Option Value := none
  prompt : Option String := none
  answer : Option Value := none
  error : Option String := none
deriving Repr

/-- `Trace`. -/
structure Trace where
  version : String := "1"
  app : TraceApp
  mission : TraceMission
  events : List TraceEvent
  final_output : Option Value := none
deriving Repr

/-- Two hex digits. -/
def hex2 (n : Nat) : String :=
  let d := fun (m : Nat) => "0123456789abcdef".toList.getD m '0'
  String.mk [d (n / 16 % 16), d (n % 16)]

/-- Four hex digits. -/
def hex4 (n : Nat) : String :=
  hex2 (n / 256 % 256) ++ hex2 (n % 256)

/-- JSON escaping of one character as `json.dumps` does by default
(`ensure_ascii=True`): quotes, backslash, the common control escapes,
`\u00XX` for other control characters, `\uXXXX` (with surrogate pairs)
for non-ASCII. -/
def jsonEscapeChar (c : Char) : String :=
  if c = '"' then "\\\"" 
  else if c = '\\' then "\\\\"
  else if c = '\n' then "\\n"
  else if c = '\t' then "\\t"
  else if c = '\r' then "\\r"
  else if c.toNat < 32 then "\\u00" ++ hex2 c.toNat
  else if c.toNat < 127 then String.mk [c]
  else if c.toNat < 65536 then "\\u" ++ hex4 c.toNat
  else
    let v := c.toNat - 65536
    "\\u" ++ hex4 (55296 + v / 1024) ++ "\\u" ++ hex4 (56320 + v % 1024)

/-- JSON string literal. -/
def jsonQuote (s : String) : String :=
  "\"" ++ (s.toList.map jsonEscapeChar).foldl (· ++ ·) "" ++ "\""

mutual

/-- `json.dumps(value)` with the default separators, optionally with
`sort_keys=True` (each object's entries ordered by key). -/
def jsonDumpsWith (sortKeys : Bool) : Value → String
  | .null => "null"
  | .bool b => if b then "true" else "false"
  | .int n => toString n
  | .str s => jsonQuote s
  | .list xs => "[" ++ String.intercalate ", " (jsonListWith sortKeys xs) ++ "]"
  | .obj kvs =>
      let entries := jsonEntriesWith sortKeys kvs
      let entries := if sortKeys then List.mergeSort entries (fun a b => a.1 ≤ b.1) else entries
      "\x7b" ++
        String.intercalate ", " (entries.map (fun kv => jsonQuote kv.1 ++ ": " ++ kv.2)) ++
      "\x7d"
termination_by v => sizeOf v

/-- Serialized list elements in order. -/
def jsonListWith (sortKeys : Bool) : List Value → List String
  | [] => []
  | x :: xs => jsonDumpsWith sortKeys x :: jsonListWith sortKeys xs
termination_by xs => sizeOf xs

/-- Serialized object entries in insertion order (sorted later if asked). -/
def jsonEntriesWith (sortKeys : Bool) : List (String × Value) → List (String × String)
  | [] => []
  | (k, v) :: kvs => (k, jsonDumpsWith sortKeys v) :: jsonEntriesWith sortKeys kvs
termination_by kvs => sizeOf kvs

end

/-- `_json_key` from `em/compiler/compile_trace.py`:
`json.dumps(value, sort_keys=True, default=str)` (no non-serializable
leaves exist in the value model, so `default=str` never fires). -/
def _json_key (value : Value) : String :=
  jsonDumpsWith true value

/-- `json.dump` without `sort_keys` (insertion order preserved). -/
def jsonDumpOrd (value : Value) : String :=
  jsonDumpsWith false value

/-- `str | None` truthiness choice: `event.prompt or "default"`. -/
def orStr (o : Option String) (d : String) : String :=
  match o with
  | some s => if s.isEmpty then d else s
  | none => d

/-- `_templatize_args`: replace each argument whose canonical JSON key is
present in `result_map` by the template string
`\x7b\x7b name \x7d\x7d`; keep everything else literally. -/
def _templatize_args (args : List (String × Value))
    (result_map : List (String × String)) : List (String × Value) :=
  args.map (fun kv =>
    match result_map.lookup (_json_key kv.2) with
    | some name => (kv.1, .str ("\x7b\x7b " ++ name ++ " \x7d\x7d"))
    | none => kv)

mutual

/-- `_infer_schema`: structural JSON-schema inference (`bool` checked
before `int` as in the source; floats outside the model). -/
def _infer_schema : Value → Value
  | .obj kvs =>
      .obj [("type", .str "object"),
            ("properties", .obj (inferProps kvs)),
            ("required", .list (kvs.map (fun kv => .str kv.1)))]
  | .list [] => .obj [("type", .str "array")]
  | .list (x :: _) => .obj [("type", .str "array"), ("items", _infer_schema x)]
  | .bool _ => .obj [("type", .str "boolean")]
  | .int _ => .obj [("type", .str "integer")]
  | .str _ => .obj [("type", .str "string")]
  | .null => .obj []
termination_by v => sizeOf v

/-- Inferred schemas of each property. -/
def inferProps : List (String × Value) → List (String × Value)
  | [] => []
  | (k, v) :: kvs => (k, _infer_schema v) :: inferProps kvs
termination_by kvs => sizeOf kvs

end

/-- `type(v).__name__` for JSON-like values. -/
def pyTypeName : Value → String
  | .null => "NoneType"
  | .bool _ => "bool"
  | .int _ => "int"
  | .str _ => "str"
  | .list _ => "list"
  | .obj _ => "dict"

/-- `_generate_udf_stub`: a Python stub whose parameters and return
annotation reflect the inferred types, with a not-implemented body. -/
def _generate_udf_stub (name : String) (event : TraceEvent) : String :=
  let params := event.args.map (fun kv => kv.1 ++ ": " ++ pyTypeName kv.2)
  let ret_type :=
    match event.result with
    | some r => pyTypeName r
    | none => "Any"
  let param_str := String.intercalate ", " params
  "def " ++ name ++ "(" ++ param_str ++ ") -> " ++ ret_type ++ ":\n" ++
  "    \"\"\"TODO: Implement " ++ name ++ " — generated from trace.\"\"\"\n" ++
  "    raise NotImplementedError(\"Implement " ++ name ++ "\")\n"

/-- `_build_udf_source`: file preamble plus the stubs. -/
def _build_udf_source (functions : List String) : String :=
  let header := "\"\"\"UDFs — generated from agent trace. Implement the TODO functions.\"\"\"\n\nfrom __future__ import annotations\nfrom typing import Any\n\n\n"
  header ++ String.intercalate "\n\n" functions

/-- Replace each maximal run of non-alphanumeric characters by one
underscore (`re.sub(r"[^a-zA-Z0-9]+", "_", …)`); the flag tracks whether
the previous character belonged to such a run. -/
def slugRuns : List Char → Bool → List Char
  | [], _ => []
  | c :: rest, inRun =>
    if c.isAlphanum then c :: slugRuns rest false
    else if inRun then slugRuns rest true
    else '_' :: slugRuns rest true

/-- `_slugify`: lowercase, collapse non-alphanumerics to underscores,
strip surrounding underscores, truncate to 60 characters. -/
def _slugify (text : String) : String :=
  let slug := slugRuns text.toLower.toList false
  let slug := slug.dropWhile (fun c => c = '_')
  let slug := (slug.reverse.dropWhile (fun c => c = '_')).reverse
  String.mk (slug.take 60)

/-- The compiler's accumulated state while walking the events. -/
structure CompState where
  steps : List Step := []
  tools : List ToolDef := []
  udf_functions : List String := []
  udf_names : List String := []
  tool_names : List String := []
  fixtures : List (String × Value) := []
  step_counter : Nat := 0
  result_map : List (String × String) := []
deriving Repr

/-- One iteration of the `compile_trace` event loop. -/
def compileEvent (st : CompState) (event : TraceEvent) : CompState :=
  let step_counter := st.step_counter + 1
  let step_id := "s" ++ toString step_counter
  match event.type with
  | .tool_call =>
    let addTool :=
      match event.tool with
      | some t => ¬ t.isEmpty && ¬ st.tool_names.contains t
      | none => false
    let tools :=
      if addTool then
        st.tools ++ [{ name := event.tool.getD "",
                       args_schema := some (_infer_schema (.obj event.args)) }]
      else st.tools
    let tool_names :=
      if addTool then st.tool_names ++ [event.tool.getD ""] else st.tool_names
    let args := _templatize_args event.args st.result_map
    let save_as := "result_" ++ step_id
    let step : Step :=
      { id := step_id, type := .tool_call, tool := event.tool,
        args := some args, save_as := some save_as,
        description := some ("Call " ++ (event.tool.getD "None")) }
    let (result_map, fixtures) :=
      match event.result with
      | some r =>
          (dictSet st.result_map (_json_key r) save_as,
           dictSet st.fixtures (step_id ++ "_result") r)
      | none => (st.result_map, st.fixtures)
    { st with
        steps := st.steps ++ [step]
        tools := tools
        tool_names := tool_names
        fixtures := fixtures
        step_counter := step_counter
        result_map := result_map }
  | .udf_call =>
    let func_name := orStr event.function ("udf_" ++ toString step_counter)
    let isNew := ¬ st.udf_names.contains func_name
    let udf_names := if isNew then st.udf_names ++ [func_name] else st.udf_names
    let udf_functions :=
      if isNew then st.udf_functions ++ [_generate_udf_stub func_name event]
      else st.udf_functions
    let args := _templatize_args event.args st.result_map
    let save_as := "result_" ++ step_id
    let step : Step :=
      { id := step_id, type := .udf_call, function := some func_name,
        args := some args, save_as := some save_as,
        description := some ("Call " ++ func_name) }
    let (result_map, fixtures) :=
      match event.result with
      | some r =>
          (dictSet st.result_map (_json_key r) save_as,
           dictSet st.fixtures (step_id ++ "_result") r)
      | none => (st.result_map, st.fixtures)
    { st with
        steps := st.steps ++ [step]
        udf_names := udf_names
        udf_functions := udf_functions
        fixtures := fixtures
        step_counter := step_counter
        result_map := result_map }
  | .approval =>
    let step : Step :=
      { id := step_id, type := .prompt_user,
        prompt := some
          { message := orStr event.prompt "Please confirm",
            fields := [{ name := "confirm",
                         label := orStr event.prompt "Proceed?",
                         type := .confirm,
                         default := .bool true }] },
        save_as := some ("approval_" ++ step_id),
        description := some "User confirmation" }
    { st with
        steps := st.steps ++ [step]
        step_counter := step_counter }

/-- The `result_map` seed: every `(canonical(input_summary[k]), k)`. -/
def seedResultMap (trace : Trace) : List (String × String) :=
  match trace.mission.input_summary with
  | some kvs => kvs.foldl (fun m kv => dictSet m (_json_key kv.2) kv.1) []
  | none => []

/-- `compile_trace` from `em/compiler/compile_trace.py`: walk the events
building steps, tool declarations, UDF stubs, fixtures and the data-flow
`result_map`; append a `return` step referencing the last save slot when
`final_output` is present and a previous step exists; infer the input and
output schemas; slugify the mission goal. -/
def compile_trace (trace : Trace) : Routine × String × List (String × Value) :=
  let init : CompState := { result_map := seedResultMap trace }
  let st := trace.events.foldl compileEvent init
  let steps :=
    match trace.final_output with
    | some _ =>
      let last_save :=
        match st.steps.getLast? with
        | some last => last.save_as
        | none => none
      if saveTruthy last_save then
        st.steps ++ [{ id := "s" ++ toString (st.step_counter + 1),
                       type := .return_,
                       value := .str ("\x7b\x7b " ++ last_save.getD "" ++ " \x7d\x7d"),
                       description := some "Return final output" : Step }]
      else st.steps
    | none => st.steps
  let input_schema :=
    match trace.mission.input_summary with
    | some kvs => if ¬ kvs.isEmpty then some (_infer_schema (.obj kvs)) else none
    | none => none
  let output_schema :=
    match trace.final_output with
    | some v => if pyTruthy v then some (_infer_schema v) else none
    | none => none
  let routine : Routine :=
    { name := _slugify trace.mission.goal,
      description := some trace.mission.goal,
      tools := st.tools,
      input_schema := input_schema,
      output_schema := output_schema,
      steps := steps }
  (routine, _build_udf_source st.udf_functions, st.fixtures)

/-! ## Filesystem crash model for `FileStateStore`
(`em/runner/state_store.py`) -/

/-- A filesystem: path → file content. -/
def Fs : Type := String → Option String

/-- Primitive file operations underlying the store's methods. -/
inductive FsOp where
  | truncate (path : String)
  | writeData (path : String) (data : String)
  | renameOp (src dst : String)
  | unlink (path : String)
deriving Repr, DecidableEq

/-- Apply one primitive operation (`truncate` is `open(path, "w")`,
which creates or empties the file; writes append to the current
content). -/
def applyFsOp (fs : Fs) : FsOp → Fs
  | .truncate p => fun q => if q = p then some "" else fs q
  | .writeData p data => fun q => if q = p then some ((fs p).getD "" ++ data) else fs q
  | .renameOp src dst => fun q =>
      if q = dst then fs src else if q = src then none else fs q
  | .unlink p => fun q => if q = p then none else fs q

/-- Apply a sequence of operations in order. -/
def applyFsOps (fs : Fs) (ops : List FsOp) : Fs :=
  ops.foldl applyFsOp fs

/-- `FileStateStore._path`: `state_dir / f"\x7brun_id\x7d.json"`. -/
def statePath (state_dir run_id : String) : String :=
  state_dir ++ "/" ++ run_id ++ ".json"

/-- `RunState.to_dict()` as a JSON value (insertion order of the dict
literal). -/
def runStateToDict (state : RunState) : Value :=
  .obj [("run_id", .str state.run_id),
        ("routine_dir", .str state.routine_dir),
        ("step_index", .int state.step_index),
        ("context", .obj state.context),
        ("pending_step_id", .str state.pending_step_id)]

/-- `FileStateStore.save`: `open(self._path(run_id), "w")` followed by
`json.dump(state.to_dict(), f)` — a truncate and an in-place write of the
serialized snapshot.  No temporary file and no rename appear in the
source. -/
def fileStoreSaveOps (state_dir : String) (state : RunState) : List FsOp :=
  [.truncate (statePath state_dir state.run_id),
   .writeData (statePath state_dir state.run_id) (jsonDumpOrd (runStateToDict state))]

/-- `FileStateStore.delete`: `if path.exists(): path.unlink()`. -/
def fileStoreDeleteOps (state_dir run_id : String) (fs : Fs) : List FsOp :=
  if (fs (statePath state_dir run_id)).isSome then
    [.unlink (statePath state_dir run_id)]
  else []

/-- The state store's save is atomic for a run when every prefix of its
primitive-operation sequence leaves the snapshot file holding either the
prior content or the final content (the property the spec ascribes to a
temp-file-plus-rename implementation). -/
def SaveAtomic (state_dir : String) (state : RunState) (fs : Fs) : Prop :=
  ∀ k ≤ (fileStoreSaveOps state_dir state).length,
    let p := statePath state_dir state.run_id
    let mid := applyFsOps fs ((fileStoreSaveOps state_dir state).take k)
    mid p = fs p ∨ mid p = applyFsOps fs (fileStoreSaveOps state_dir state) p

/-! ## Effect-trace counters and basic lemmas -/

/-- Number of step execution attempts recorded for step index `i`. -/
def attemptCount (i : Nat) (effs : List Effect) : Nat :=
  (effs.filter (fun e =>
    match e with
    | .attempt j _ => j = i
    | _ => false)).length

/-- Number of recovery-adviser consultations recorded for step index `i`. -/
def advisorCount (i : Nat) (effs : List Effect) : Nat :=
  (effs.filter (fun e =>
    match e with
    | .advisorCall j _ => j = i
    | _ => false)).length

theorem attemptCount_append (i : Nat) (a b : List Effect) :
    attemptCount i (a ++ b) = attemptCount i a + attemptCount i b := by
  simp [attemptCount, List.filter_append]

theorem advisorCount_append (i : Nat) (a b : List Effect) :
    advisorCount i (a ++ b) = advisorCount i a + advisorCount i b := by
  simp [advisorCount, List.filter_append]

theorem attemptCount_nil (i : Nat) : attemptCount i [] = 0 := rfl

theorem advisorCount_nil (i : Nat) : advisorCount i [] = 0 := rfl

/-- The effects of `_exec_tool_call` carry no attempt or adviser records. -/
theorem exec_tool_call_counts (step : Step) (context : Ctx) (pkg : RoutinePackage)
    (reg : ToolRegistry) (j : Nat) :
    attemptCount j (_exec_tool_call step context pkg reg).2 = 0 ∧
    advisorCount j (_exec_tool_call step context pkg reg).2 = 0 := by
  unfold _exec_tool_call
  repeat' split
  all_goals simp [attemptCount, advisorCount]

/-- The effects of `_exec_udf_call` carry no attempt or adviser records. -/
theorem exec_udf_call_counts (step : Step) (context : Ctx) (pkg : RoutinePackage)
    (j : Nat) :
    attemptCount j (_exec_udf_call step context pkg).2 = 0 ∧
    advisorCount j (_exec_udf_call step context pkg).2 = 0 := by
  unfold _exec_udf_call
  repeat' split
  all_goals simp [attemptCount, advisorCount]

/-- `_run_step` produces only tool/UDF/context-write/store-save effects:
never an attempt or adviser record (those are the loop's own). -/
theorem run_step_counts (step : Step) (context : Ctx) (pkg : RoutinePackage)
    (reg : ToolRegistry) (store : Store) (rdir rid : String) (i : Nat) (j : Nat) :
    (∀ ctx' effs, _run_step step context pkg reg store rdir rid i = .ok ctx' effs →
      attemptCount j effs = 0 ∧ advisorCount j effs = 0) ∧
    (∀ r store' effs, _run_step step context pkg reg store rdir rid i = .result r store' effs →
      attemptCount j effs = 0 ∧ advisorCount j effs = 0) ∧
    (∀ e effs, _run_step step context pkg reg store rdir rid i = .err e effs →
      attemptCount j effs = 0 ∧ advisorCount j effs = 0) := by
  have ht := exec_tool_call_counts step context pkg reg j
  have hu := exec_udf_call_counts step context pkg j
  refine ⟨?_, ?_, ?_⟩
  · intro ctx' effs h
    unfold _run_step at h
    repeat' split at h
    all_goals cases h
    all_goals simp_all [attemptCount_append, advisorCount_append, attemptCount, advisorCount]
  · intro r store' effs h
    unfold _run_step at h
    repeat' split at h
    all_goals cases h
    all_goals simp_all [attemptCount_append, advisorCount_append, attemptCount, advisorCount]
  · intro e effs h
    unfold _run_step at h
    repeat' split at h
    all_goals cases h
    all_goals simp_all [attemptCount_append, advisorCount_append, attemptCount, advisorCount]

/-! ## C9 — eager boolean operators in `safe_eval` -/

/-- C9: `safe_eval`'s boolean operators are eager, not short-circuiting:
for `A and B` / `A or B` both operands are evaluated even when `A` alone
decides the result (an error from `B` surfaces although `A` is already
decisive), and in particular evaluating `False and missing_name` against
an empty context raises `NameError` for the undefined name instead of
returning `False`. -/
theorem c9_bool_ops_eager :
    (∀ (op : BoolOpK) (a b : PyAst) (ctx : EvalCtx) (va : EvalVal) (e : PyExc),
        evalNode a ctx = .ok va → evalNode b ctx = .error e →
        safe_eval (.boolOp op [a, b]) ctx = .error e) ∧
    safe_eval (.boolOp .land [.constant (.bool false), .name "missing_name"]) [] =
      .error ⟨"NameError", "Undefined variable: missing_name"⟩ := by
  constructor
  · intro op a b ctx va e ha hb
    simp [safe_eval, evalNode, evalBoolChain, ha, hb, Except.bind, bind]
  · simp [safe_eval, evalNode, evalBoolChain, List.lookup, Except.bind, bind]

/-- C9 witness: the theorem applied at `False and missing_name` (second
conjunct) and at `True or nope` via the general eager rule. -/
theorem c9_bool_ops_eager_witness :
    safe_eval (.boolOp .land [.constant (.bool false), .name "missing_name"]) [] =
      .error ⟨"NameError", "Undefined variable: missing_name"⟩ ∧
    safe_eval (.boolOp .lor [.constant (.bool true), .name "nope"]) [] =
      .error ⟨"NameError", "Undefined variable: nope"⟩ :=
  ⟨c9_bool_ops_eager.2,
   c9_bool_ops_eager.1 .lor (.constant (.bool true)) (.name "nope") []
     (.val (.bool true)) ⟨"NameError", "Undefined variable: nope"⟩
     (by simp [evalNode]) (by simp [evalNode, List.lookup])⟩

/-! ## C5 — raw passthrough in `render_value` -/

theorem hasInfix_of_infix {needle hay : List Char} (h : needle <:+: hay) :
    hasInfix needle hay = true := by
  induction hay with
  | nil =>
    rw [List.infix_nil] at h
    simp [h, hasInfix]
  | cons c rest ih =>
    rw [ List.infix_cons_iff] at h
    rcases h with h | h
    · simp [hasInfix, List.isPrefixOf_iff_prefix, h]
    · simp [hasInfix, ih h]

/-- Structure of a successful `_SIMPLE_VAR_RE` match: the string is
`\x7b\x7b`, optional whitespace, a non-empty identifier (the capture),
optional whitespace, `\x7d\x7d`. -/
theorem matchSimpleVarChars_some (cs : List Char) (x : String)
    (h : matchSimpleVarChars cs = some x) :
    ∃ rest, cs = '\x7b' :: '\x7b' :: rest ∧
      (rest.dropWhile isPySpace).takeWhile isPyWord ≠ [] ∧
      x = String.mk ((rest.dropWhile isPySpace).takeWhile isPyWord) ∧
      ((rest.dropWhile isPySpace).dropWhile isPyWord).dropWhile isPySpace =
        ['\x7d', '\x7d'] := by
  rw [matchSimpleVarChars.eq_def] at h
  split at h
  · rename_i rest
    refine ⟨rest, rfl, ?_⟩
    simp only at h
    split at h
    · cases h
    · split at h
      · rename_i heq
        cases h
        refine ⟨?_, rfl, heq⟩
        simp_all [List.isEmpty_iff]
      · cases h
  · cases h

/-- C5: for every value `v`, `render_value` applied to a string that is
exactly `\x7b\x7b x \x7d\x7d` (optional surrounding whitespace inside the
braces, as matched by `_SIMPLE_VAR_RE`) with `x` bound to `v` in the
context returns exactly `v`, preserving its type and deep structure; and
when the identifier is absent from the context, rendering fails with an
error (the strict-undefined template path) instead of substituting
anything. -/
theorem c5_raw_passthrough (s x : String) (ctx : Ctx) (udf : Option UdfModule)
    (h : matchSimpleVar s = some x) :
    (∀ v, ctxGet ctx x = some v → render_value (.str s) ctx udf = .ok v) ∧
    (ctxGet ctx x = none →
      render_value (.str s) ctx udf = .error ⟨"UndefinedError", x ++ " is undefined"⟩) := by
  obtain ⟨rest, hcs, hword, hx, hclose⟩ := matchSimpleVarChars_some s.toList x h
  have hbra : strContains s "\x7b\x7b" = true := by
    unfold strContains
    apply hasInfix_of_infix
    rw [hcs, show ("\x7b\x7b".toList) = ['\x7b', '\x7b'] from rfl]
    exact ⟨[], rest, rfl⟩
  have hket : strContains s "\x7d\x7d" = true := by
    unfold strContains
    apply hasInfix_of_infix
    rw [hcs, show ("\x7d\x7d".toList) = ['\x7d', '\x7d'] from rfl]
    have hsuf : ['\x7d', '\x7d'] <:+ rest := by
      rw [← hclose]
      exact (List.dropWhile_suffix _).trans
        ((List.dropWhile_suffix _).trans (List.dropWhile_suffix _))
    exact List.infix_cons_iff.mpr (Or.inr ( List.infix_cons_iff.mpr (Or.inr hsuf.isInfix)))
  constructor
  · intro v hv
    simp [render_value, hbra, hket, h, hv]
  · intro hv
    simp [render_value, hbra, hket, h, hv]
    rw [show s.data = s.toList from rfl, hcs]
    have hne : ((rest.dropWhile isPySpace).takeWhile isPyWord).isEmpty = false := by
      simp [List.isEmpty_iff, hword]
    simp [jinjaScan, hne, hclose, ← hx, hv]
    rfl

/-- C5 witness: the theorem applied to `\x7b\x7b x \x7d\x7d` with `x`
bound to a nested list (returned raw, not stringified) and with an empty
context (undefined-variable error). -/
theorem c5_raw_passthrough_witness :
    render_value (.str "\x7b\x7b x \x7d\x7d")
        [("x", .list [.int 1, .obj [("a", .null)]])] none
      = .ok (.list [.int 1, .obj [("a", .null)]]) ∧
    render_value (.str "\x7b\x7b x \x7d\x7d") [] none
      = .error ⟨"UndefinedError", "x is undefined"⟩ :=
  ⟨(c5_raw_passthrough "\x7b\x7b x \x7d\x7d" "x"
      [("x", .list [.int 1, .obj [("a", .null)]])] none rfl).1 _ rfl,
   (c5_raw_passthrough "\x7b\x7b x \x7d\x7d" "x" [] none rfl).2 rfl⟩

/-! ## C6 — guard semantics -/

/-- C6: for every step with a `when` expression, a falsy evaluation skips
the step with the run continuing on the unchanged context, store and
effect trace (no tool or UDF invocation, no `save_as` write — the
outcome equals the run without the step); an evaluator error aborts the
run with status `failed` and error kind `ConditionError`. -/
theorem c6_guard (pkg : RoutinePackage) (rid : String) (reg : ToolRegistry)
    (rdir : String) (fix : Option AutoFixFn) (i : Nat) (step : Step)
    (rest : List (Nat × Step)) (ctx : Ctx) (store : Store) (w : PyAst)
    (hw : step.when = some w) :
    (∀ v, safe_eval w (_build_eval_context ctx pkg) = .ok v → evTruthy v = false →
      execSteps pkg rid reg rdir fix ((i, step) :: rest) ctx store =
        execSteps pkg rid reg rdir fix rest ctx store) ∧
    (∀ e, safe_eval w (_build_eval_context ctx pkg) = .error e →
      execSteps pkg rid reg rdir fix ((i, step) :: rest) ctx store =
        (⟨rid, .failed, .null,
          some ⟨step.id, "ConditionError",
            "Error evaluating " ++ "\x27" ++ "when" ++ "\x27" ++ " condition: " ++ e.msg,
            ctx⟩, none, []⟩, store, [])) := by
  constructor
  · intro v hv htr
    simp [execSteps, hw, hv, htr]
  · intro e he
    simp [execSteps, hw, he]

/-- A guarded tool step whose `when` reads `flag`. -/
def c6StepFlag : Step :=
  { id := "s1", type := .tool_call, tool := some "t", when := some (.name "flag") }

/-- A guarded tool step whose `when` reads an undefined name. -/
def c6StepMissing : Step :=
  { id := "s1", type := .tool_call, tool := some "t", when := some (.name "missing") }

/-- A minimal loaded package for the witness (no UDF module). -/
def c6Pkg : RoutinePackage := ⟨{ name := "demo", steps := [c6StepFlag] }, none⟩

/-- C6 witness: with `flag = False` the guarded step is skipped (the run
equals the run without it, on the same context with no effects); with an
undefined guard name the run fails with `ConditionError`. -/
theorem c6_guard_witness :
    (execSteps c6Pkg "r" [] "d" none [(0, c6StepFlag)] [("flag", .bool false)] [] =
      execSteps c6Pkg "r" [] "d" none [] [("flag", .bool false)] []) ∧
    (execSteps c6Pkg "r" [] "d" none [(0, c6StepMissing)] [] [] =
      (⟨"r", .failed, .null,
        some ⟨"s1", "ConditionError",
          "Error evaluating " ++ "\x27" ++ "when" ++ "\x27" ++
            " condition: Undefined variable: missing", []⟩, none, []⟩, [], [])) :=
  ⟨(c6_guard c6Pkg "r" [] "d" none 0 c6StepFlag [] [("flag", .bool false)] []
      (.name "flag") rfl).1 (.val (.bool false))
      (by simp [safe_eval, evalNode, _build_eval_context, c6Pkg, List.lookup]) rfl,
   (c6_guard c6Pkg "r" [] "d" none 0 c6StepMissing [] [] []
      (.name "missing") rfl).2 ⟨"NameError", "Undefined variable: missing"⟩
      (by simp [safe_eval, evalNode, _build_eval_context, c6Pkg, List.lookup])⟩

/-! ## C1 — engine public boundary on load failures (corrected) -/

/-- A directory environment whose `routine.yaml` is missing everywhere:
`load_routine` raises `FileNotFoundError`. -/
def c1DirsMissing : DirEnv :=
  fun d => .error ⟨"FileNotFoundError", "No routine.yaml found in " ++ d⟩

/-- C1 counterexample: for a directory with a missing `routine.yaml`,
`run_routine` does not return a Run Result at all — `RoutinePackage` is
constructed outside any handler, so the `FileNotFoundError` propagates to
the caller instead of surfacing as a `failed` result with empty
context. -/
theorem c1_counterexample :
    run_routine c1DirsMissing "demo" [] none [] "run-1" none =
      .error ⟨"FileNotFoundError", "No routine.yaml found in demo"⟩ ∧
    ¬ ∃ out : RunResult × Store × List Effect,
        run_routine c1DirsMissing "demo" [] none [] "run-1" none = .ok out ∧
        out.1.status = .failed ∧ out.1.context = [] := by
  constructor
  · simp [run_routine, c1DirsMissing, Except.bind, bind]
  · rintro ⟨out, hout, -⟩
    simp [run_routine, c1DirsMissing, Except.bind, bind] at hout

/-- C1 amended: whenever the routine document loads, `run_routine`
returns a Run Result (the step loop catches every step-level error and
the loop itself is total); a missing or malformed routine document
instead propagates the raised load exception to the caller. -/
theorem c1_amended (dirs : DirEnv) (rdir : String) (input : Ctx)
    (reg : Option ToolRegistry) (store : Store) (rid : String)
    (fix : Option AutoFixFn) :
    (∀ pkg, dirs rdir = .ok pkg →
      ∃ out : RunResult × Store × List Effect,
        run_routine dirs rdir input reg store rid fix = .ok out) ∧
    (∀ e, dirs rdir = .error e →
      run_routine dirs rdir input reg store rid fix = .error e) := by
  constructor
  · intro pkg h
    refine ⟨_execute_steps pkg rid input 0 (reg.getD []) store rdir fix, ?_⟩
    simp [run_routine, h, Except.bind, bind]
  · intro e h
    simp [run_routine, h, Except.bind, bind]

/-- A loadable one-step package used by witnesses. -/
def c1Pkg : RoutinePackage :=
  ⟨{ name := "demo",
     steps := [{ id := "s1", type := .return_, value := .int 7 }] }, none⟩

/-- C1 amended witness: the amended theorem applied to an environment
that loads `c1Pkg` (a Run Result comes back) and to the
missing-document environment (the load error propagates). -/
theorem c1_amended_witness :
    (∃ out : RunResult × Store × List Effect,
      run_routine (fun _ => .ok c1Pkg) "demo" [] none [] "run-1" none = .ok out) ∧
    run_routine c1DirsMissing "demo" [] none [] "run-1" none =
      .error ⟨"FileNotFoundError", "No routine.yaml found in demo"⟩ :=
  ⟨(c1_amended (fun _ => .ok c1Pkg) "demo" [] none [] "run-1" none).1 c1Pkg rfl,
   (c1_amended c1DirsMissing "demo" [] none [] "run-1" none).2
     ⟨"FileNotFoundError", "No routine.yaml found in demo"⟩ rfl⟩

/-! ## C7 — durable state store contract (corrected) -/

/-- A concrete snapshot for the store counterexample. -/
def c7State : RunState := ⟨"r1", "dir", 0, [("x", .int 1)], "s1"⟩

/-- A filesystem already holding a prior snapshot for `r1`. -/
def c7Fs : Fs := fun p => if p = statePath "st" "r1" then some "OLD" else none

/-- C7 counterexample: `FileStateStore.save` is not atomic.  After the
first primitive operation — the truncating `open(path, "w")` — the
snapshot file holds neither the prior snapshot nor the new one, so a
crash between the truncate and the write loses both (there is no
temp-file-plus-rename in the source). -/
theorem c7_counterexample : ¬ SaveAtomic "st" c7State c7Fs := by
  intro h
  have h1 := h 1 (by simp [fileStoreSaveOps])
  simp only [SaveAtomic, fileStoreSaveOps, applyFsOps, applyFsOp, List.take,
    List.foldl, c7State] at h1
  simp [c7Fs, statePath, jsonDumpOrd, jsonDumpsWith, jsonEntriesWith, jsonQuote,
    jsonEscapeChar, runStateToDict, c7State] at h1
  exact absurd h1 (by decide)

/-- C7 amended: a completed `FileStateStore.save` leaves the file holding
exactly the new serialized snapshot, but the replacement is a truncate
followed by an in-place write (not atomic); `FileStateStore.delete` is
idempotent — deleting an absent run id leaves the filesystem unchanged,
and deleting twice equals deleting once. -/
theorem c7_amended :
    (∀ (sd : String) (st : RunState) (fs : Fs),
      applyFsOps fs (fileStoreSaveOps sd st) (statePath sd st.run_id) =
        some (jsonDumpOrd (runStateToDict st))) ∧
    (∀ (sd rid : String) (fs : Fs), fs (statePath sd rid) = none →
      applyFsOps fs (fileStoreDeleteOps sd rid fs) = fs) ∧
    (∀ (sd rid : String) (fs : Fs),
      applyFsOps (applyFsOps fs (fileStoreDeleteOps sd rid fs))
        (fileStoreDeleteOps sd rid (applyFsOps fs (fileStoreDeleteOps sd rid fs))) =
      applyFsOps fs (fileStoreDeleteOps sd rid fs)) := by
  refine ⟨?_, ?_, ?_⟩
  · intro sd st fs
    simp [fileStoreSaveOps, applyFsOps, applyFsOp]
  · intro sd rid fs h
    simp [fileStoreDeleteOps, h, applyFsOps]
  · intro sd rid fs
    by_cases h : (fs (statePath sd rid)).isSome
    · simp [fileStoreDeleteOps, h, applyFsOps, applyFsOp]
    · simp [fileStoreDeleteOps, h, applyFsOps, applyFsOp]

/-- C7 amended witness: the amended theorem applied to the concrete
snapshot and filesystem, and to a delete on an empty filesystem. -/
theorem c7_amended_witness :
    applyFsOps c7Fs (fileStoreSaveOps "st" c7State) (statePath "st" "r1") =
      some (jsonDumpOrd (runStateToDict c7State)) ∧
    applyFsOps (fun _ => none) (fileStoreDeleteOps "st" "r9" (fun _ => none)) =
      (fun _ => none) :=
  ⟨c7_amended.1 "st" c7State c7Fs,
   c7_amended.2.1 "st" "r9" (fun _ => none) rfl⟩

theorem append_isEmpty_false (a b : String) (ha : a.isEmpty = false) :
    (a ++ b).isEmpty = false := by
  rw [Bool.eq_false_iff]
  intro h
  rw [String.isEmpty_iff] at h
  have hd := congrArg String.data h
  simp [String.data_append] at hd
  have : a = "" := String.ext hd.1
  rw [this] at ha
  simp [String.isEmpty] at ha

theorem compileEvent_steps (st : CompState) (ev : TraceEvent) :
    ∃ stp, (compileEvent st ev).steps = st.steps ++ [stp] ∧
      saveTruthy stp.save_as = true := by
  unfold compileEvent
  split
  · exact ⟨_, rfl, by simp [saveTruthy]; exact append_isEmpty_false _ _ (by decide)⟩
  · exact ⟨_, rfl, by simp [saveTruthy]; exact append_isEmpty_false _ _ (by decide)⟩
  · exact ⟨_, rfl, by simp [saveTruthy]; exact append_isEmpty_false _ _ (by decide)⟩

theorem foldl_steps_length (evs : List TraceEvent) :
    ∀ st : CompState, ((evs.foldl compileEvent st).steps).length =
      st.steps.length + evs.length := by
  induction evs with
  | nil => intro st; simp
  | cons e rest ih =>
    intro st
    obtain ⟨stp, hsteps, -⟩ := compileEvent_steps st e
    rw [List.foldl_cons, ih, hsteps]
    simp
    omega

theorem foldl_steps_save (evs : List TraceEvent) :
    ∀ st : CompState, (∀ stp ∈ st.steps, saveTruthy stp.save_as = true) →
      ∀ stp ∈ (evs.foldl compileEvent st).steps, saveTruthy stp.save_as = true := by
  induction evs with
  | nil => intro st h; simpa using h
  | cons e rest ih =>
    intro st h
    obtain ⟨stp, hsteps, hsv⟩ := compileEvent_steps st e
    rw [List.foldl_cons]
    apply ih
    rw [hsteps]
    intro q hq
    rcases List.mem_append.mp hq with hq | hq
    · exact h q hq
    · simp at hq
      subst hq
      exact hsv

/-- C8: `compile_trace` succeeds on every trace (it is a total function
in the model, mirroring the absence of any non-emptiness enforcement on
`Routine.steps` in `em/models/routine.py` despite the spec's data model),
appending exactly one step per event plus one `return` step exactly when
`final_output` is present and at least one event exists; compiling a
trace with an empty events list yields a routine with zero steps — no
`return` step is appended even when `final_output` is present. -/
theorem c8_compiler_totality :
    (∀ tr : Trace, (compile_trace tr).1.steps.length =
        tr.events.length +
          (if tr.final_output.isSome && !tr.events.isEmpty then 1 else 0)) ∧
    (∀ tr : Trace, tr.events = [] → (compile_trace tr).1.steps = []) := by
  constructor
  · intro tr
    have hlen := foldl_steps_length tr.events { result_map := seedResultMap tr }
    simp only [List.length_nil] at hlen
    unfold compile_trace
    simp only
    cases hfo : tr.final_output with
    | none => simpa [hfo] using hlen
    | some v =>
      by_cases hevs : tr.events = []
      · have hnil :
            (List.foldl compileEvent { result_map := seedResultMap tr } tr.events).steps = [] := by
          apply List.length_eq_zero.mp
          rw [hlen, hevs]
          simp
        simp [hfo, hevs, hnil, saveTruthy]
      · have hpos : 0 < tr.events.length := List.length_pos.mpr hevs
        have hne :
            (List.foldl compileEvent { result_map := seedResultMap tr } tr.events).steps ≠ [] := by
          intro hcon
          rw [hcon] at hlen
          simp at hlen
          omega
        obtain ⟨last, hlast⟩ :
            ∃ l, (List.foldl compileEvent { result_map := seedResultMap tr }
                    tr.events).steps.getLast? = some l := by
          cases h : (List.foldl compileEvent { result_map := seedResultMap tr }
              tr.events).steps.getLast? with
          | none => exact absurd (List.getLast?_eq_none_iff.mp h) hne
          | some l => exact ⟨l, rfl⟩
        have hmem := List.mem_of_mem_getLast? hlast
        have hsv := foldl_steps_save tr.events { result_map := seedResultMap tr }
          (by intro q hq; simp at hq) last hmem
        have hie : tr.events.isEmpty = false := by simpa [List.isEmpty_iff] using hevs
        simp [hfo, hlast, hsv, hlen, hie]
  · intro tr h
    unfold compile_trace
    simp [h]
    cases hfo : tr.final_output <;> simp [hfo, saveTruthy]

/-- C8 witness: the theorem applied to an empty-event trace carrying a
`final_output` (zero steps) and to a one-event trace with a
`final_output` (one step plus the appended `return`). -/
theorem c8_compiler_totality_witness :
    (compile_trace ⟨"1", ⟨"app", none⟩, ⟨"do the thing", none⟩, [],
        some (.str "out")⟩).1.steps = [] ∧
    (compile_trace ⟨"1", ⟨"app", none⟩, ⟨"fetch data", none⟩,
        [{ type := .tool_call, seq := 0, tool := some "fetch",
           args := [("url", .str "http://x")], result := some (.str "data") }],
        some (.str "data")⟩).1.steps.length = 2 :=
  ⟨c8_compiler_totality.2 _ rfl,
   by
    have h := c8_compiler_totality.1
      ⟨"1", ⟨"app", none⟩, ⟨"fetch data", none⟩,
        [{ type := .tool_call, seq := 0, tool := some "fetch",
           args := [("url", .str "http://x")], result := some (.str "data") }],
        some (.str "data")⟩
    simpa using h⟩

theorem attemptCount_cons (j : Nat) (e : Effect) (l : List Effect) :
    attemptCount j (e :: l) =
      (match e with
       | .attempt i _ => if i = j then 1 else 0
       | _ => 0) + attemptCount j l := by
  cases e <;> simp only [attemptCount, List.filter_cons] <;>
    first
    | (split <;> simp_all [List.length_cons] <;> omega)
    | simp

theorem advisorCount_cons (j : Nat) (e : Effect) (l : List Effect) :
    advisorCount j (e :: l) =
      (match e with
       | .advisorCall i _ => if i = j then 1 else 0
       | _ => 0) + advisorCount j l := by
  cases e <;> simp only [advisorCount, List.filter_cons] <;>
    first
    | (split <;> simp_all [List.length_cons] <;> omega)
    | simp

/-- Per-index effect accounting for the step loop: when the step indices
are distinct, an index outside the list gets no attempt or adviser
records, each index gets at most two execution attempts, and the
recovery adviser is consulted at most once per index. -/
theorem execSteps_counts (pkg : RoutinePackage) (rid : String) (reg : ToolRegistry)
    (rdir : String) (fix : Option AutoFixFn) :
    ∀ (items : List (Nat × Step)), (items.map Prod.fst).Nodup →
      ∀ (ctx : Ctx) (store : Store) (j : Nat),
        (j ∉ items.map Prod.fst →
          attemptCount j (execSteps pkg rid reg rdir fix items ctx store).2.2 = 0 ∧
          advisorCount j (execSteps pkg rid reg rdir fix items ctx store).2.2 = 0) ∧
        (attemptCount j (execSteps pkg rid reg rdir fix items ctx store).2.2 ≤ 2 ∧
         advisorCount j (execSteps pkg rid reg rdir fix items ctx store).2.2 ≤ 1) := by
  intro items
  induction items with
  | nil =>
    intro _ ctx store j
    simp [execSteps, attemptCount, advisorCount]
  | cons hd rest ih =>
    rcases hd with ⟨i, step⟩
    intro hnd ctx store j
    have hnd' : (rest.map Prod.fst).Nodup := (List.nodup_cons.mp (by simpa using hnd)).2
    have hni : i ∉ rest.map Prod.fst := (List.nodup_cons.mp (by simpa using hnd)).1
    have hrsc := run_step_counts step ctx pkg reg store rdir rid i j
    -- a reusable closer for branches that continue on `rest` after local
    -- effects tagged (if at all) with index `i`
    have hK : ∀ (ctx' : Ctx) (store₂ : Store) (pre : List Effect),
        (attemptCount j pre = if j = i then attemptCount j pre else 0) →
        (advisorCount j pre = if j = i then advisorCount j pre else 0) →
        attemptCount j pre ≤ 2 → advisorCount j pre ≤ 1 →
        ((j ∉ ((i, step) :: rest).map Prod.fst →
          attemptCount j (pre ++ (execSteps pkg rid reg rdir fix rest ctx' store₂).2.2) = 0 ∧
          advisorCount j (pre ++ (execSteps pkg rid reg rdir fix rest ctx' store₂).2.2) = 0) ∧
         (attemptCount j (pre ++ (execSteps pkg rid reg rdir fix rest ctx' store₂).2.2) ≤ 2 ∧
          advisorCount j (pre ++ (execSteps pkg rid reg rdir fix rest ctx' store₂).2.2) ≤ 1)) := by
      intro ctx' store₂ pre ha hv hab hvb
      have ihr := ih hnd' ctx' store₂ j
      constructor
      · intro hj
        simp only [List.map_cons, List.mem_cons] at hj
        push_neg at hj
        have hji : j ≠ i := hj.1
        have hjr : j ∉ rest.map Prod.fst := hj.2
        have hrec := ihr.1 hjr
        rw [if_neg hji] at ha hv
        simp [attemptCount_append, advisorCount_append, ha, hv, hrec.1, hrec.2]
      · by_cases hji : j = i
        · have hjr : j ∉ rest.map Prod.fst := by rw [hji]; exact hni
          have hrec := ihr.1 hjr
          simp [attemptCount_append, advisorCount_append, hrec.1, hrec.2]
          omega
        · rw [if_neg hji] at ha hv
          have hrec := ihr.2
          simp [attemptCount_append, advisorCount_append, ha, hv]
          omega
    simp only [execSteps]
    split
    · -- guard evaluation failed: terminal with empty trace
      simp [attemptCount_nil, advisorCount_nil, attemptCount, advisorCount]
    · rename_i cond heq
      clear heq
      rcases cond
      · -- guard falsy: skip, recurse on the tail unchanged
        rw [if_pos (by rfl)]
        have ihr := ih hnd' ctx store j
        refine ⟨fun hj => ihr.1 ?_, ihr.2⟩
        simp only [List.map_cons, List.mem_cons] at hj
        push_neg at hj
        exact hj.2
      · -- guard passed: dispatch
        rw [if_neg (by decide)]
        rcases hr : _run_step step ctx pkg reg store rdir rid i with
          ⟨ctx', effs⟩ | ⟨r, store', effs⟩ | ⟨exc, effs⟩
        · have h0 := hrsc.1 _ _ hr
          simpa [prependEffs, attemptCount_cons, advisorCount_cons, h0.1, h0.2] using
            hK ctx' store (Effect.attempt i step.id :: effs)
              (by simp [attemptCount_cons, h0.1]; split <;> simp_all)
              (by simp [advisorCount_cons, h0.2])
              (by simp [attemptCount_cons, h0.1]; split <;> simp)
              (by simp [advisorCount_cons, h0.2])
        · have h0 := hrsc.2.1 _ _ _ hr
          constructor
          · intro hj
            simp only [List.map_cons, List.mem_cons] at hj
            push_neg at hj
            simp [attemptCount_cons, advisorCount_cons, attemptCount_nil, advisorCount_nil,
              h0.1, h0.2, Ne.symm hj.1]
          · simp [attemptCount_cons, advisorCount_cons, attemptCount_nil, advisorCount_nil,
              h0.1, h0.2]
            split <;> simp
        · -- the step raised: recovery dispatch
          have h0 := hrsc.2.2 _ _ hr
          rcases fix with _ | f
          · -- no callback: abort, trace = attempt ++ step effects
            constructor
            · intro hj
              simp only [List.map_cons, List.mem_cons] at hj
              push_neg at hj
              simp [attemptCount_cons, advisorCount_cons, attemptCount_append,
                advisorCount_append, attemptCount_nil, advisorCount_nil, h0.1, h0.2, Ne.symm hj.1]
            · simp [attemptCount_cons, advisorCount_cons, attemptCount_append,
                advisorCount_append, attemptCount_nil, advisorCount_nil, h0.1, h0.2]
              constructor <;> (split <;> simp [attemptCount, advisorCount])
          · rcases hf : f step exc ctx pkg.routine with _ | fv
            · -- callback returned none (or raised): abort after consulting
              simp only [hf]
              constructor
              · intro hj
                simp only [List.map_cons, List.mem_cons] at hj
                push_neg at hj
                simp [attemptCount_cons, advisorCount_cons, attemptCount_append,
                  advisorCount_append, attemptCount_nil, advisorCount_nil, h0.1, h0.2, Ne.symm hj.1]
              · simp [attemptCount_cons, advisorCount_cons, attemptCount_append,
                  advisorCount_append, attemptCount_nil, advisorCount_nil, h0.1, h0.2]
                constructor <;> (split <;> simp [attemptCount, advisorCount])
            · cases fv with
              | obj fixDict =>
                simp only [hf]
                by_cases hs1 : strategyIs (fixDict.lookup "strategy") "modify_args"
                · simp only [hs1, if_true]
                  rcases hn : fixDict.lookup "new_args" with _ | nv
                  · simp only [hn]
                    constructor
                    · intro hj
                      simp only [List.map_cons, List.mem_cons] at hj
                      push_neg at hj
                      simp [attemptCount_cons, advisorCount_cons, attemptCount_append,
                        advisorCount_append, attemptCount_nil, advisorCount_nil, h0.1, h0.2, Ne.symm hj.1]
                    · simp [attemptCount_cons, advisorCount_cons, attemptCount_append,
                        advisorCount_append, attemptCount_nil, advisorCount_nil, h0.1, h0.2]
                      constructor <;> (split <;> simp [attemptCount, advisorCount])
                  · cases nv with
                    | obj new_args =>
                      simp only [hn]
                      have hrsc2 := run_step_counts { step with args := some new_args }
                        ctx pkg reg store rdir rid i j
                      rcases hr2 : _run_step { step with args := some new_args }
                          ctx pkg reg store rdir rid i with
                        ⟨ctx'', effs2⟩ | ⟨r2, store2, effs2⟩ | ⟨exc2, effs2⟩
                      · have h2 := hrsc2.1 _ _ hr2
                        refine hK ctx'' store _ ?_ ?_ ?_ ?_ <;>
                          (simp [attemptCount_cons, advisorCount_cons, attemptCount_append,
                            advisorCount_append, attemptCount_nil, advisorCount_nil,
                            h0.1, h0.2, h2.1, h2.2]
                           try (constructor <;> (by_cases hji : j = i <;> simp [hji] <;> simp [Ne.symm hji]))
                           try (by_cases hji : j = i <;> simp [hji] <;> simp [Ne.symm hji])
                           try (by_cases hji2 : i = j <;> simp [hji2]))
                      · have h2 := hrsc2.2.1 _ _ _ hr2
                        constructor
                        · intro hj
                          simp only [List.map_cons, List.mem_cons] at hj
                          push_neg at hj
                          simp [attemptCount_cons, advisorCount_cons, attemptCount_append,
                            advisorCount_append, attemptCount_nil, advisorCount_nil, h0.1, h0.2, h2.1, h2.2, Ne.symm hj.1]
                        · simp [attemptCount_cons, advisorCount_cons, attemptCount_append,
                            advisorCount_append, attemptCount_nil, advisorCount_nil, h0.1, h0.2, h2.1, h2.2]
                          constructor <;> (split <;> simp [attemptCount, advisorCount])
                      · have h2 := hrsc2.2.2 _ _ hr2
                        constructor
                        · intro hj
                          simp only [List.map_cons, List.mem_cons] at hj
                          push_neg at hj
                          simp [attemptCount_cons, advisorCount_cons, attemptCount_append,
                            advisorCount_append, attemptCount_nil, advisorCount_nil, h0.1, h0.2, h2.1, h2.2, Ne.symm hj.1]
                        · simp [attemptCount_cons, advisorCount_cons, attemptCount_append,
                            advisorCount_append, attemptCount_nil, advisorCount_nil, h0.1, h0.2, h2.1, h2.2]
                          constructor <;> (split <;> simp [attemptCount, advisorCount])
                    | null =>
                      simp only [hn]
                      constructor
                      · intro hj
                        simp only [List.map_cons, List.mem_cons] at hj
                        push_neg at hj
                        simp [attemptCount_cons, advisorCount_cons, attemptCount_append,
                          advisorCount_append, attemptCount_nil, advisorCount_nil, h0.1, h0.2, Ne.symm hj.1]
                      · simp [attemptCount_cons, advisorCount_cons, attemptCount_append,
                          advisorCount_append, attemptCount_nil, advisorCount_nil, h0.1, h0.2]
                        constructor <;> (split <;> simp [attemptCount, advisorCount])
                    | bool b =>
                      simp only [hn]
                      constructor
                      · intro hj
                        simp only [List.map_cons, List.mem_cons] at hj
                        push_neg at hj
                        simp [attemptCount_cons, advisorCount_cons, attemptCount_append,
                          advisorCount_append, attemptCount_nil, advisorCount_nil, h0.1, h0.2, Ne.symm hj.1]
                      · simp [attemptCount_cons, advisorCount_cons, attemptCount_append,
                          advisorCount_append, attemptCount_nil, advisorCount_nil, h0.1, h0.2]
                        constructor <;> (split <;> simp [attemptCount, advisorCount])
                    | int n =>
                      simp only [hn]
                      constructor
                      · intro hj
                        simp only [List.map_cons, List.mem_cons] at hj
                        push_neg at hj
                        simp [attemptCount_cons, advisorCount_cons, attemptCount_append,
                          advisorCount_append, attemptCount_nil, advisorCount_nil, h0.1, h0.2, Ne.symm hj.1]
                      · simp [attemptCount_cons, advisorCount_cons, attemptCount_append,
                          advisorCount_append, attemptCount_nil, advisorCount_nil, h0.1, h0.2]
                        constructor <;> (split <;> simp [attemptCount, advisorCount])
                    | str sv =>
                      simp only [hn]
                      constructor
                      · intro hj
                        simp only [List.map_cons, List.mem_cons] at hj
                        push_neg at hj
                        simp [attemptCount_cons, advisorCount_cons, attemptCount_append,
                          advisorCount_append, attemptCount_nil, advisorCount_nil, h0.1, h0.2, Ne.symm hj.1]
                      · simp [attemptCount_cons, advisorCount_cons, attemptCount_append,
                          advisorCount_append, attemptCount_nil, advisorCount_nil, h0.1, h0.2]
                        constructor <;> (split <;> simp [attemptCount, advisorCount])
                    | list xs =>
                      simp only [hn]
                      constructor
                      · intro hj
                        simp only [List.map_cons, List.mem_cons] at hj
                        push_neg at hj
                        simp [attemptCount_cons, advisorCount_cons, attemptCount_append,
                          advisorCount_append, attemptCount_nil, advisorCount_nil, h0.1, h0.2, Ne.symm hj.1]
                      · simp [attemptCount_cons, advisorCount_cons, attemptCount_append,
                          advisorCount_append, attemptCount_nil, advisorCount_nil, h0.1, h0.2]
                        constructor <;> (split <;> simp [attemptCount, advisorCount])
                · simp only [hs1, if_false]
                  by_cases hs2 : strategyIs (fixDict.lookup "strategy") "skip"
                  · simp only [hs2, if_true]
                    by_cases hsv : saveTruthy step.save_as
                    · simp only [hsv, if_true]
                      refine hK _ store _ ?_ ?_ ?_ ?_ <;>
                        (simp [attemptCount_cons, advisorCount_cons, attemptCount_append,
                          advisorCount_append, attemptCount_nil, advisorCount_nil, h0.1, h0.2]
                         try (by_cases hji : j = i <;> simp [hji] <;> simp [Ne.symm hji])
                         try (by_cases hji2 : i = j <;> simp [hji2]))
                    · simp only [hsv]
                      refine hK _ store _ ?_ ?_ ?_ ?_ <;>
                        (simp [attemptCount_cons, advisorCount_cons, attemptCount_append,
                          advisorCount_append, attemptCount_nil, advisorCount_nil, h0.1, h0.2]
                         try (by_cases hji : j = i <;> simp [hji] <;> simp [Ne.symm hji])
                         try (by_cases hji2 : i = j <;> simp [hji2]))
                  · simp only [hs2, if_false]
                    constructor
                    · intro hj
                      simp only [List.map_cons, List.mem_cons] at hj
                      push_neg at hj
                      simp [attemptCount_cons, advisorCount_cons, attemptCount_append,
                        advisorCount_append, attemptCount_nil, advisorCount_nil, h0.1, h0.2, Ne.symm hj.1]
                    · simp [attemptCount_cons, advisorCount_cons, attemptCount_append,
                        advisorCount_append, attemptCount_nil, advisorCount_nil, h0.1, h0.2]
                      constructor <;> (split <;> simp [attemptCount, advisorCount])
              | null =>
                simp only [hf]
                constructor
                · intro hj
                  simp only [List.map_cons, List.mem_cons] at hj
                  push_neg at hj
                  simp [attemptCount_cons, advisorCount_cons, attemptCount_append,
                    advisorCount_append, attemptCount_nil, advisorCount_nil, h0.1, h0.2, Ne.symm hj.1]
                · simp [attemptCount_cons, advisorCount_cons, attemptCount_append,
                    advisorCount_append, attemptCount_nil, advisorCount_nil, h0.1, h0.2]
                  constructor <;> (split <;> simp [attemptCount, advisorCount])
              | bool b =>
                simp only [hf]
                constructor
                · intro hj
                  simp only [List.map_cons, List.mem_cons] at hj
                  push_neg at hj
                  simp [attemptCount_cons, advisorCount_cons, attemptCount_append,
                    advisorCount_append, attemptCount_nil, advisorCount_nil, h0.1, h0.2, Ne.symm hj.1]
                · simp [attemptCount_cons, advisorCount_cons, attemptCount_append,
                    advisorCount_append, attemptCount_nil, advisorCount_nil, h0.1, h0.2]
                  constructor <;> (split <;> simp [attemptCount, advisorCount])
              | int n =>
                simp only [hf]
                constructor
                · intro hj
                  simp only [List.map_cons, List.mem_cons] at hj
                  push_neg at hj
                  simp [attemptCount_cons, advisorCount_cons, attemptCount_append,
                    advisorCount_append, attemptCount_nil, advisorCount_nil, h0.1, h0.2, Ne.symm hj.1]
                · simp [attemptCount_cons, advisorCount_cons, attemptCount_append,
                    advisorCount_append, attemptCount_nil, advisorCount_nil, h0.1, h0.2]
                  constructor <;> (split <;> simp [attemptCount, advisorCount])
              | str sv =>
                simp only [hf]
                constructor
                · intro hj
                  simp only [List.map_cons, List.mem_cons] at hj
                  push_neg at hj
                  simp [attemptCount_cons, advisorCount_cons, attemptCount_append,
                    advisorCount_append, attemptCount_nil, advisorCount_nil, h0.1, h0.2, Ne.symm hj.1]
                · simp [attemptCount_cons, advisorCount_cons, attemptCount_append,
                    advisorCount_append, attemptCount_nil, advisorCount_nil, h0.1, h0.2]
                  constructor <;> (split <;> simp [attemptCount, advisorCount])
              | list xs =>
                simp only [hf]
                constructor
                · intro hj
                  simp only [List.map_cons, List.mem_cons] at hj
                  push_neg at hj
                  simp [attemptCount_cons, advisorCount_cons, attemptCount_append,
                    advisorCount_append, attemptCount_nil, advisorCount_nil, h0.1, h0.2, Ne.symm hj.1]
                · simp [attemptCount_cons, advisorCount_cons, attemptCount_append,
                    advisorCount_append, attemptCount_nil, advisorCount_nil, h0.1, h0.2]
                  constructor <;> (split <;> simp [attemptCount, advisorCount])

/-- C3: recovery single-retry ceiling.  (1) For every run over
distinct-index steps, each step index records at most two execution
attempts (the original and at most one retry) and at most one adviser
consultation.  (2) With strategy `modify_args` and a dict `new_args`, the
same step is re-executed exactly once with `args` replaced by
`new_args`; if that re-execution also fails, the run aborts with status
`failed` carrying the retry exception, without consulting the callback
again (the trace holds exactly two attempts and one adviser call for the
step).  (3) If the re-execution succeeds, the run continues with its
context, again after exactly two attempts and one consultation. -/
theorem c3_recovery_single_retry :
    (∀ (pkg : RoutinePackage) (rid : String) (reg : ToolRegistry) (rdir : String)
       (fix : Option AutoFixFn) (items : List (Nat × Step)),
       (items.map Prod.fst).Nodup → ∀ (ctx : Ctx) (store : Store) (j : Nat),
         attemptCount j (execSteps pkg rid reg rdir fix items ctx store).2.2 ≤ 2 ∧
         advisorCount j (execSteps pkg rid reg rdir fix items ctx store).2.2 ≤ 1) ∧
    (∀ (pkg : RoutinePackage) (rid : String) (reg : ToolRegistry) (rdir : String)
       (f : AutoFixFn) (i : Nat) (step : Step) (rest : List (Nat × Step))
       (ctx : Ctx) (store : Store) (exc : PyExc) (effs : List Effect)
       (fixDict : List (String × Value)) (new_args : List (String × Value))
       (retry_exc : PyExc) (effs2 : List Effect),
       step.when = none →
       _run_step step ctx pkg reg store rdir rid i = .err exc effs →
       f step exc ctx pkg.routine = some (.obj fixDict) →
       fixDict.lookup "strategy" = some (.str "modify_args") →
       fixDict.lookup "new_args" = some (.obj new_args) →
       _run_step { step with args := some new_args } ctx pkg reg store rdir rid i =
         .err retry_exc effs2 →
       execSteps pkg rid reg rdir (some f) ((i, step) :: rest) ctx store =
         (⟨rid, .failed, .null, some ⟨step.id, retry_exc.ty, retry_exc.msg, ctx⟩, none, []⟩,
          store,
          .attempt i step.id :: effs ++ [.advisorCall i step.id] ++
            .attempt i step.id :: effs2)) ∧
    (∀ (pkg : RoutinePackage) (rid : String) (reg : ToolRegistry) (rdir : String)
       (f : AutoFixFn) (i : Nat) (step : Step) (rest : List (Nat × Step))
       (ctx : Ctx) (store : Store) (exc : PyExc) (effs : List Effect)
       (fixDict : List (String × Value)) (new_args : List (String × Value))
       (ctx2 : Ctx) (effs2 : List Effect),
       step.when = none →
       _run_step step ctx pkg reg store rdir rid i = .err exc effs →
       f step exc ctx pkg.routine = some (.obj fixDict) →
       fixDict.lookup "strategy" = some (.str "modify_args") →
       fixDict.lookup "new_args" = some (.obj new_args) →
       _run_step { step with args := some new_args } ctx pkg reg store rdir rid i =
         .ok ctx2 effs2 →
       execSteps pkg rid reg rdir (some f) ((i, step) :: rest) ctx store =
         prependEffs
           (.attempt i step.id :: effs ++ [.advisorCall i step.id] ++
             .attempt i step.id :: effs2)
           (execSteps pkg rid reg rdir (some f) rest ctx2 store)) := by
  refine ⟨?_, ?_, ?_⟩
  · intro pkg rid reg rdir fix items hnd ctx store j
    exact (execSteps_counts pkg rid reg rdir fix items hnd ctx store j).2
  · intro pkg rid reg rdir f i step rest ctx store exc effs fixDict new_args
      retry_exc effs2 hw hr hf hstrat hn hr2
    rw [hw] at hr2
    simp only [execSteps, hw]
    rw [if_neg (by decide)]
    simp only [hr, hf, hstrat, hn, hr2, strategyIs]
    simp
  · intro pkg rid reg rdir f i step rest ctx store exc effs fixDict new_args
      ctx2 effs2 hw hr hf hstrat hn hr2
    rw [hw] at hr2
    simp only [execSteps, hw]
    rw [if_neg (by decide)]
    simp only [hr, hf, hstrat, hn, hr2, strategyIs]
    simp

/-- A UDF module with a function that always raises (witness fixture). -/
def c3Udf : UdfModule := [("boom", fun _ _ => .error ⟨"RuntimeError", "kaboom"⟩)]

def c3Pkg : RoutinePackage := ⟨{ name := "demo", steps := [] }, some c3Udf⟩

def c3Step : Step :=
  { id := "s1", type := .udf_call, function := some "boom", args := some [] }

def c3Fix : AutoFixFn := fun _ _ _ _ =>
  some (.obj [("strategy", .str "modify_args"), ("new_args", .obj [])])

/-- C3 witness: the theorem applied to a failing UDF step with a
`modify_args` fix whose new arguments still fail: exactly two attempts,
one adviser consultation, and a `failed` result. -/
theorem c3_recovery_single_retry_witness :
    execSteps c3Pkg "r" [] "d" (some c3Fix) [(0, c3Step)] [] [] =
      (⟨"r", .failed, .null, some ⟨"s1", "RuntimeError", "kaboom", []⟩, none, []⟩, [],
       [.attempt 0 "s1", .udfCall "boom" [], .advisorCall 0 "s1",
        .attempt 0 "s1", .udfCall "boom" []]) ∧
    attemptCount 0 (execSteps c3Pkg "r" [] "d" (some c3Fix) [(0, c3Step)] [] []).2.2 ≤ 2 ∧
    advisorCount 0 (execSteps c3Pkg "r" [] "d" (some c3Fix) [(0, c3Step)] [] []).2.2 ≤ 1 := by
  have hr : _run_step c3Step [] c3Pkg [] [] "d" "r" 0 =
      .err ⟨"RuntimeError", "kaboom"⟩ [.udfCall "boom" []] := by
    simp [_run_step, _exec_udf_call, RoutinePackage.get_udf, renderObjEntries,
      c3Pkg, c3Udf, c3Step, List.lookup, saveTruthy]
  have hr2 : _run_step { c3Step with args := some [] } [] c3Pkg [] [] "d" "r" 0 =
      .err ⟨"RuntimeError", "kaboom"⟩ [.udfCall "boom" []] := by
    simp [_run_step, _exec_udf_call, RoutinePackage.get_udf, renderObjEntries,
      c3Pkg, c3Udf, c3Step, List.lookup, saveTruthy]
  have h2 := c3_recovery_single_retry.2.1 c3Pkg "r" [] "d" c3Fix 0 c3Step [] [] []
      ⟨"RuntimeError", "kaboom"⟩ [.udfCall "boom" []]
      [("strategy", .str "modify_args"), ("new_args", .obj [])] []
      ⟨"RuntimeError", "kaboom"⟩ [.udfCall "boom" []]
      rfl hr rfl rfl rfl hr2
  have h1 := c3_recovery_single_retry.1 c3Pkg "r" [] "d" (some c3Fix)
      [(0, c3Step)] (by simp) [] [] 0
  refine ⟨?_, h1⟩
  simpa [c3Step] using h2

/-- With no recovery callback the step loop never consults an adviser. -/
theorem execSteps_none_no_advisor (pkg : RoutinePackage) (rid : String)
    (reg : ToolRegistry) (rdir : String) :
    ∀ (items : List (Nat × Step)) (ctx : Ctx) (store : Store) (j : Nat),
      advisorCount j (execSteps pkg rid reg rdir none items ctx store).2.2 = 0 := by
  intro items
  induction items with
  | nil => intro ctx store j; simp [execSteps, advisorCount_nil]
  | cons hd rest ih =>
    rcases hd with ⟨i, step⟩
    intro ctx store j
    have hrsc := run_step_counts step ctx pkg reg store rdir rid i j
    simp only [execSteps]
    split
    · simp [advisorCount_nil]
    · rename_i cond heq
      clear heq
      rcases cond
      · rw [if_pos (by rfl)]
        exact ih ctx store j
      · rw [if_neg (by decide)]
        rcases hr : _run_step step ctx pkg reg store rdir rid i with
          ⟨ctx', effs⟩ | ⟨r, store', effs⟩ | ⟨exc, effs⟩
        · have h0 := hrsc.1 _ _ hr
          simp [prependEffs, advisorCount_cons, advisorCount_append, h0.2, ih ctx' store j]
        · have h0 := hrsc.2.1 _ _ _ hr
          simp [advisorCount_cons, h0.2]
        · have h0 := hrsc.2.2 _ _ hr
          simp [advisorCount_cons, advisorCount_append, advisorCount_nil, h0.2]

/-- C10: `resume_run` accepts no recovery callback and invokes the step
executor without one.  (1) A resumed run's effect trace contains no
adviser consultation for any step, whatever the original run was started
with.  (2) Under the executor with no callback, a step that fails always
aborts the run immediately with status `failed` carrying the step's
exception — the `modify_args` / `skip` auto-fix paths are unavailable. -/
theorem c10_resume_no_recovery :
    (∀ (dirs : DirEnv) (rid : String) (answers : PromptAnswers) (store : Store)
       (reg : Option ToolRegistry) (out : RunResult × Store × List Effect),
       resume_run dirs rid answers store reg = .ok out →
       ∀ j, advisorCount j out.2.2 = 0) ∧
    (∀ (pkg : RoutinePackage) (rid : String) (reg : ToolRegistry) (rdir : String)
       (i : Nat) (step : Step) (rest : List (Nat × Step)) (ctx : Ctx) (store : Store)
       (exc : PyExc) (effs : List Effect),
       step.when = none →
       _run_step step ctx pkg reg store rdir rid i = .err exc effs →
       execSteps pkg rid reg rdir none ((i, step) :: rest) ctx store =
         (⟨rid, .failed, .null, some ⟨step.id, exc.ty, exc.msg, ctx⟩, none, []⟩,
          store, .attempt i step.id :: effs)) := by
  constructor
  · intro dirs rid answers store reg out hout j
    unfold resume_run at hout
    split at hout
    · cases hout
      simp [advisorCount_nil]
    · rename_i state hload
      rcases hdir : dirs state.routine_dir with e | pkg
      · rw [hdir] at hout
        cases hout
      · rw [hdir] at hout
        simp only [Except.bind, bind] at hout
        split at hout
        · cases hout
          simp [advisorCount_nil]
        · rename_i pending hfind
          split at hout
          · cases hout
            simp [advisorCount_nil]
          · rename_i prompt hprompt
            split at hout
            · cases hout
              simp [advisorCount_nil]
            · cases hout
              simp [prependEffs, advisorCount_cons, _execute_steps,
                execSteps_none_no_advisor]
  · intro pkg rid reg rdir i step rest ctx store exc effs hw hr
    simp only [execSteps, hw]
    rw [if_neg (by decide)]
    simp only [hr]
    simp

/-- Witness fixtures: a two-step routine (prompt, then failing UDF),
resumed past the prompt. -/
def c10Udf : UdfModule := [("boom", fun _ _ => .error ⟨"RuntimeError", "kaboom"⟩)]

def c10Fail : Step :=
  { id := "s2", type := .udf_call, function := some "boom", args := some [] }

def c10Steps : List Step :=
  [{ id := "s1", type := .prompt_user, prompt := some ⟨"Continue?", []⟩ }, c10Fail]

def c10Pkg : RoutinePackage := ⟨{ name := "demo", steps := c10Steps }, some c10Udf⟩

def c10Dirs : DirEnv := fun _ => .ok c10Pkg

def c10Store : Store := [("r", ⟨"r", "d", 0, [], "s1"⟩)]

/-- C10 witness: the theorem applied to a concrete resumed run whose
post-resume step fails: the run aborts `failed` and no adviser call is
recorded. -/
theorem c10_resume_no_recovery_witness :
    resume_run c10Dirs "r" ⟨[]⟩ c10Store none =
      .ok (⟨"r", .failed, .null,
            some ⟨"s2", "RuntimeError", "kaboom", [("_prompt_answers", .obj [])]⟩,
            none, []⟩, [],
           [.storeDeleteOp "r", .attempt 1 "s2", .udfCall "boom" []]) ∧
    advisorCount 1 [.storeDeleteOp "r", .attempt 1 "s2", .udfCall "boom" []] = 0 ∧
    execSteps c10Pkg "r" [] "d" none [(1, c10Fail)] [("_prompt_answers", .obj [])] [] =
      (⟨"r", .failed, .null,
        some ⟨"s2", "RuntimeError", "kaboom", [("_prompt_answers", .obj [])]⟩,
        none, []⟩, [], [.attempt 1 "s2", .udfCall "boom" []]) := by
  have hr : _run_step c10Fail [("_prompt_answers", .obj [])] c10Pkg [] [] "d" "r" 1 =
      .err ⟨"RuntimeError", "kaboom"⟩ [.udfCall "boom" []] := by
    simp [_run_step, _exec_udf_call, RoutinePackage.get_udf, renderObjEntries,
      c10Pkg, c10Udf, c10Fail, List.lookup, saveTruthy]
  have h2 := c10_resume_no_recovery.2 c10Pkg "r" [] "d" 1 c10Fail [] [("_prompt_answers", .obj [])] []
      ⟨"RuntimeError", "kaboom"⟩ [.udfCall "boom" []] rfl hr
  have heval : resume_run c10Dirs "r" ⟨[]⟩ c10Store none =
      .ok (⟨"r", .failed, .null,
            some ⟨"s2", "RuntimeError", "kaboom", [("_prompt_answers", .obj [])]⟩,
            none, []⟩, [],
           [.storeDeleteOp "r", .attempt 1 "s2", .udfCall "boom" []]) := by
    have hfix : c10Pkg.routine.steps.enum.drop 1 = [(1, c10Fail)] := by
      simp [c10Pkg, c10Steps, List.enum]
    simp only [c10Pkg, c10Steps, c10Fail] at h2
    simp [resume_run, c10Dirs, c10Store, storeLoad, List.lookup, c10Pkg, c10Steps, c10Fail,
      List.find?, PromptAnswers.validate_against, saveTruthy, ctxSet, dictSet,
      storeDelete, _execute_steps, hfix, prependEffs, Except.bind, bind, h2]
  refine ⟨heval, ?_, ?_⟩
  · have := c10_resume_no_recovery.1 c10Dirs "r" ⟨[]⟩ c10Store none _ heval 1
    simpa using this
  · exact h2

theorem dictSet_lookup {α : Type} (m : List (String × α)) (k : String) (v : α)
    (k' : String) :
    (dictSet m k v).lookup k' = if k' = k then some v else m.lookup k' := by
  induction m with
  | nil =>
    by_cases h : k' = k
    · simp [dictSet, List.lookup, h]
    · have hb : (k' == k) = false := by simpa using h
      simp [dictSet, List.lookup, h, hb]
  | cons kv rest ih =>
    rcases kv with ⟨a, b⟩
    rw [dictSet]
    by_cases hak : a = k
    · subst hak
      simp only [if_pos rfl]
      by_cases h : k' = a
      · simp [List.lookup, h]
      · have hb : (k' == a) = false := by simpa using h
        simp [List.lookup, h, hb]
    · rw [if_neg hak]
      by_cases h : k' = a
      · subst h
        have hkk : ¬ k' = k := hak
        simp [List.lookup, hkk]
      · have hb : (k' == a) = false := by simpa using h
        simp [List.lookup, h, hb, ih]

/-- The compiler state after the first `n` trace events. -/
def compStateUpto (tr : Trace) (n : Nat) : CompState :=
  (tr.events.take n).foldl compileEvent { result_map := seedResultMap tr }

theorem compStateUpto_succ (tr : Trace) (n : Nat) (ev : TraceEvent)
    (h : tr.events.get? n = some ev) :
    compStateUpto tr (n + 1) = compileEvent (compStateUpto tr n) ev := by
  unfold compStateUpto
  rw [List.take_succ]
  have : tr.events[n]?.toList = [ev] := by
    rw [← List.get?_eq_getElem?, h]
    rfl
  rw [this, List.foldl_append]
  rfl

theorem compStateUpto_counter (tr : Trace) :
    ∀ n, (compStateUpto tr n).step_counter = min n tr.events.length := by
  intro n
  induction n with
  | zero => simp [compStateUpto]
  | succ m ih =>
    cases h : tr.events.get? m with
    | some ev =>
      have hlt : m < tr.events.length := by
        by_contra hc
        push_neg at hc
        rw [List.get?_eq_none.mpr hc] at h
        cases h
      rw [compStateUpto_succ tr m ev h]
      have : (compileEvent (compStateUpto tr m) ev).step_counter =
          (compStateUpto tr m).step_counter + 1 := by
        unfold compileEvent
        split <;> rfl
      rw [this, ih]
      omega
    | none =>
      have hge : tr.events.length ≤ m := by
        by_contra hc
        push_neg at hc
        rw [List.get?_eq_some.mpr ⟨hc, rfl⟩] at h
        cases h
      unfold compStateUpto at ih ⊢
      rw [List.take_of_length_le hge] at ih
      rw [List.take_of_length_le (by omega)]
      rw [ih]
      omega

theorem compStateUpto_steps_length (tr : Trace) (n : Nat) :
    (compStateUpto tr n).steps.length = min n tr.events.length := by
  unfold compStateUpto
  rw [foldl_steps_length]
  simp

theorem compileEvent_args (st : CompState) (ev : TraceEvent)
    (h : ev.type = .tool_call ∨ ev.type = .udf_call) :
    ∃ stp, (compileEvent st ev).steps = st.steps ++ [stp] ∧
      stp.args = some (_templatize_args ev.args st.result_map) := by
  unfold compileEvent
  rcases h with h | h <;> simp only [h] <;> exact ⟨_, rfl, rfl⟩

theorem compStateUpto_stable (tr : Trace) (m : Nat)
    (h : tr.events.get? m = none) :
    compStateUpto tr (m + 1) = compStateUpto tr m := by
  have hge : tr.events.length ≤ m := by
    by_contra hc
    push_neg at hc
    rw [List.get?_eq_some.mpr ⟨hc, rfl⟩] at h
    cases h
  unfold compStateUpto
  rw [List.take_of_length_le hge, List.take_of_length_le (by omega)]

theorem compStateUpto_steps_prefix (tr : Trace) (m : Nat) :
    ∀ n, m ≤ n → (compStateUpto tr m).steps <+: (compStateUpto tr n).steps := by
  intro n
  induction n with
  | zero => intro h; rw [Nat.le_zero.mp h]
  | succ p ih =>
    intro h
    by_cases hmp : m = p + 1
    · rw [hmp]
    · have hle : m ≤ p := by omega
      refine (ih hle).trans ?_
      cases hev : tr.events.get? p with
      | none => rw [compStateUpto_stable tr p hev]
      | some ev =>
        rw [compStateUpto_succ tr p ev hev]
        obtain ⟨stp, hs, -⟩ := compileEvent_steps (compStateUpto tr p) ev
        rw [hs]
        exact ⟨[stp], rfl⟩

theorem compile_trace_steps_decomp (tr : Trace) :
    ∃ tail, (compile_trace tr).1.steps =
      (compStateUpto tr tr.events.length).steps ++ tail := by
  unfold compile_trace compStateUpto
  rw [List.take_length]
  cases hfo : tr.final_output with
  | none => exact ⟨[], by simp⟩
  | some v =>
    simp only
    by_cases hsv : saveTruthy
        (match (List.foldl compileEvent
            { result_map := seedResultMap tr } tr.events).steps.getLast? with
         | some last => last.save_as
         | none => none)
    · rw [if_pos hsv]
      exact ⟨_, rfl⟩
    · rw [if_neg hsv]
      exact ⟨[], by simp⟩

theorem templatize_lookup (args : List (String × Value))
    (rm : List (String × String)) (k : String) :
    (_templatize_args args rm).lookup k =
      (args.lookup k).map (fun v =>
        match rm.lookup (_json_key v) with
        | some name => .str ("\x7b\x7b " ++ name ++ " \x7d\x7d")
        | none => v) := by
  induction args with
  | nil => rfl
  | cons kv rest ih =>
    rcases kv with ⟨a, v⟩
    by_cases h : k = a
    · cases hrm : rm.lookup (_json_key v) <;>
        simp [_templatize_args, List.lookup, h, hrm]
    · have hb : (k == a) = false := by simpa using h
      cases hrm : rm.lookup (_json_key v) <;>
        simpa [_templatize_args, List.lookup, hb, hrm] using ih

theorem seedFold_origin (kvs : List (String × Value)) :
    ∀ (acc : List (String × String)) (c name : String),
      (kvs.foldl (fun m kv => dictSet m (_json_key kv.2) kv.1) acc).lookup c = some name →
      acc.lookup c = some name ∨ ∃ v, (name, v) ∈ kvs ∧ _json_key v = c := by
  induction kvs with
  | nil => intro acc c name h; exact Or.inl h
  | cons kv rest ih =>
    rcases kv with ⟨a, v⟩
    intro acc c name h
    rcases ih _ _ _ h with h' | ⟨w, hw, hc⟩
    · rw [dictSet_lookup] at h'
      split at h'
      · rename_i hck
        cases h'
        exact Or.inr ⟨v, by simp, hck.symm⟩
      · exact Or.inl h'
    · exact Or.inr ⟨w, by simp [hw], hc⟩

theorem seed_origin (tr : Trace) (c name : String)
    (h : (seedResultMap tr).lookup c = some name) :
    ∃ v, (name, v) ∈ tr.mission.input_summary.getD [] ∧ _json_key v = c := by
  unfold seedResultMap at h
  cases him : tr.mission.input_summary with
  | none => rw [him] at h; cases h
  | some kvs =>
    rw [him] at h
    rcases seedFold_origin kvs [] c name h with h' | h'
    · cases h'
    · simpa [him] using h'

theorem compileEvent_result_map (st : CompState) (ev : TraceEvent) :
    (compileEvent st ev).result_map = st.result_map ∨
    ((ev.type = .tool_call ∨ ev.type = .udf_call) ∧ ∃ r, ev.result = some r ∧
      (compileEvent st ev).result_map =
        dictSet st.result_map (_json_key r)
          ("result_" ++ ("s" ++ toString (st.step_counter + 1)))) := by
  cases htyp : ev.type with
  | tool_call =>
    cases hres : ev.result with
    | none => exact Or.inl (by simp [compileEvent, htyp, hres])
    | some r =>
      exact Or.inr ⟨Or.inl rfl, r, rfl, by simp [compileEvent, htyp, hres]⟩
  | udf_call =>
    cases hres : ev.result with
    | none => exact Or.inl (by simp [compileEvent, htyp, hres])
    | some r =>
      exact Or.inr ⟨Or.inr rfl, r, rfl, by simp [compileEvent, htyp, hres]⟩
  | approval => exact Or.inl (by simp [compileEvent, htyp])

/-- Where an entry of the compiler result map can come from: the mission
input summary, or the recorded result of an earlier tool/UDF event. -/
def ResultMapOrigin (tr : Trace) (n : Nat) (c name : String) : Prop :=
  (∃ v, (name, v) ∈ tr.mission.input_summary.getD [] ∧ _json_key v = c) ∨
  (∃ m ev r, m < n ∧ tr.events.get? m = some ev ∧
    (ev.type = .tool_call ∨ ev.type = .udf_call) ∧ ev.result = some r ∧
    _json_key r = c ∧ name = "result_" ++ ("s" ++ toString (m + 1)))

theorem resultMap_origin (tr : Trace) :
    ∀ n c name,
      (compStateUpto tr n).result_map.lookup c = some name →
      ResultMapOrigin tr n c name := by
  intro n
  induction n with
  | zero =>
    intro c name h
    have h0 : (compStateUpto tr 0).result_map = seedResultMap tr := rfl
    rw [h0] at h
    exact Or.inl (seed_origin tr c name h)
  | succ m ih =>
    intro c name h
    cases hev : tr.events.get? m with
    | none =>
      rw [compStateUpto_stable tr m hev] at h
      rcases ih c name h with h' | ⟨j, e, r, hj, rest⟩
      · exact Or.inl h'
      · exact Or.inr ⟨j, e, r, by omega, rest⟩
    | some ev =>
      rw [compStateUpto_succ tr m ev hev] at h
      rcases compileEvent_result_map (compStateUpto tr m) ev with
        heq | ⟨hty, r, hres, heq⟩
      · rw [heq] at h
        rcases ih c name h with h' | ⟨j, e, r, hj, rest⟩
        · exact Or.inl h'
        · exact Or.inr ⟨j, e, r, by omega, rest⟩
      · rw [heq, dictSet_lookup] at h
        split at h
        · rename_i hck
          cases h
          have hm : m < tr.events.length := by
            by_contra hc
            push_neg at hc
            rw [List.get?_eq_none.mpr hc] at hev
            cases hev
          have hcnt : (compStateUpto tr m).step_counter = m := by
            rw [compStateUpto_counter tr m]
            omega
          exact Or.inr ⟨m, ev, r, by omega, hev, hty, hres, hck.symm, by rw [hcnt]⟩
        · rcases ih c name h with h' | ⟨j, e, r', hj, rest⟩
          · exact Or.inl h'
          · exact Or.inr ⟨j, e, r', by omega, rest⟩

/-- C4. Compiler templatization: for every tool/UDF trace event, the compiled
step at the same position carries `args = _templatize_args` of the event args
against the result map accumulated so far; each argument whose canonical JSON
serialization matches a recorded prior result or an input-summary field becomes
the template string referencing that save slot (and the referenced name indeed
originates from such a prior result or input field), while an argument with no
match is kept as the literal value. -/
theorem c4_templatization (tr : Trace) (n : Nat) (ev : TraceEvent)
    (hev : tr.events.get? n = some ev)
    (hty : ev.type = .tool_call ∨ ev.type = .udf_call) :
    ∃ stp, (compile_trace tr).1.steps.get? n = some stp ∧
      stp.args = some (_templatize_args ev.args (compStateUpto tr n).result_map) ∧
      ∀ k v, ev.args.lookup k = some v →
        (match (compStateUpto tr n).result_map.lookup (_json_key v) with
         | some name =>
             (_templatize_args ev.args (compStateUpto tr n).result_map).lookup k =
               some (.str ("\x7b\x7b " ++ name ++ " \x7d\x7d")) ∧
             ResultMapOrigin tr n (_json_key v) name
         | none =>
             (_templatize_args ev.args (compStateUpto tr n).result_map).lookup k =
               some v) := by
  have hn : n < tr.events.length := by
    by_contra hc
    push_neg at hc
    rw [List.get?_eq_none.mpr hc] at hev
    cases hev
  obtain ⟨stp, hs, ha⟩ := compileEvent_args (compStateUpto tr n) ev hty
  have hsucc : (compStateUpto tr (n + 1)).steps =
      (compStateUpto tr n).steps ++ [stp] := by
    rw [compStateUpto_succ tr n ev hev, hs]
  obtain ⟨t2, ht2⟩ :=
    compStateUpto_steps_prefix tr (n + 1) tr.events.length (by omega)
  obtain ⟨tail, htail⟩ := compile_trace_steps_decomp tr
  have hlen : (compStateUpto tr n).steps.length = n := by
    rw [compStateUpto_steps_length]
    omega
  have hfull : (compile_trace tr).1.steps =
      (compStateUpto tr n).steps ++ stp :: (t2 ++ tail) := by
    rw [htail, ← ht2, hsucc]
    simp
  refine ⟨stp, ?_, ha, ?_⟩
  · rw [hfull, List.get?_append_right (by omega)]
    simp [hlen]
  · intro k v hkv
    cases hrm : (compStateUpto tr n).result_map.lookup (_json_key v) with
    | some name =>
      refine ⟨?_, resultMap_origin tr n _ name hrm⟩
      rw [templatize_lookup, hkv]
      simp [hrm]
    | none =>
      rw [templatize_lookup, hkv]
      simp [hrm]

def c4Ev1 : TraceEvent :=
  { type := .tool_call
    seq := 1
    tool := some "fetch"
    args := [("q", .str "x")]
    result := some (.str "data") }

def c4Ev : TraceEvent :=
  { type := .udf_call
    seq := 2
    function := some "f"
    args := [("d", .str "data"), ("lit", .int 7)] }

def c4Tr : Trace :=
  { app := { name := "a" }
    mission := { goal := "g", input_summary := some [("inp", .str "x")] }
    events := [c4Ev1, c4Ev] }

theorem c4_templatization_witness :
    ∃ stp, (compile_trace c4Tr).1.steps.get? 1 = some stp ∧
      stp.args = some (_templatize_args c4Ev.args (compStateUpto c4Tr 1).result_map) ∧
      ∀ k v, c4Ev.args.lookup k = some v →
        (match (compStateUpto c4Tr 1).result_map.lookup (_json_key v) with
         | some name =>
             (_templatize_args c4Ev.args (compStateUpto c4Tr 1).result_map).lookup k =
               some (.str ("\x7b\x7b " ++ name ++ " \x7d\x7d")) ∧
             ResultMapOrigin c4Tr 1 (_json_key v) name
         | none =>
             (_templatize_args c4Ev.args (compStateUpto c4Tr 1).result_map).lookup k =
               some v) :=
  c4_templatization c4Tr 1 c4Ev (by rfl) (Or.inr rfl)

/-- The `when`-guard computation shared by the step loop: `None` means
run, otherwise evaluate the expression and take its truthiness; an
evaluator error propagates. -/
def stepGuard (step : Step) (context : Ctx) (pkg : RoutinePackage) :
    Except PyExc Bool :=
  match step.when with
  | none => .ok true
  | some w =>
    match safe_eval w (_build_eval_context context pkg) with
    | .ok v => .ok (evTruthy v)
    | .error e => .error e

/-- Modelled from the spec: the counterfactual run in which a reached
prompt step is "answered inline".  Identical to `execSteps` with no
recovery callback, except that a `prompt.user` step whose id `amap`
answers binds the answer value (into a truthy `save_as`, else
`_prompt_answers`) and continues instead of pausing. -/
def execStepsInline (pkg : RoutinePackage) (run_id : String)
    (tool_registry : ToolRegistry) (routine_dir : String)
    (amap : String → Option Value) :
    List (Nat × Step) → Ctx → Store → RunResult × Store × List Effect
  | [], context, store =>
      (⟨run_id, .ok, .obj context, none, none, []⟩, store, [])
  | (i, step) :: rest, context, store =>
    match stepGuard step context pkg with
    | .error exc =>
        (⟨run_id, .failed, .null,
          some ⟨step.id, "ConditionError",
            "Error evaluating " ++ "\x27" ++ "when" ++ "\x27" ++ " condition: " ++ exc.msg,
            context⟩, none, []⟩, store, [])
    | .ok cond =>
      if !cond then
        execStepsInline pkg run_id tool_registry routine_dir amap rest context store
      else
        match step.type, amap step.id with
        | .prompt_user, some binds =>
          execStepsInline pkg run_id tool_registry routine_dir amap rest
            (ctxSet context
              (if saveTruthy step.save_as then step.save_as.getD ""
               else "_prompt_answers") binds) store
        | _, _ =>
          match _run_step step context pkg tool_registry store routine_dir run_id i with
          | .ok ctx' effs =>
              prependEffs (.attempt i step.id :: effs)
                (execStepsInline pkg run_id tool_registry routine_dir amap rest ctx' store)
          | .result r store' effs => (r, store', .attempt i step.id :: effs)
          | .err exc effs =>
              (⟨run_id, .failed, .null,
                some ⟨step.id, exc.ty, exc.msg, context⟩, none, []⟩,
               store, .attempt i step.id :: effs)

/-- One unfolding of `execSteps` with no recovery callback, phrased over
`stepGuard`. -/
theorem execSteps_cons_none (pkg : RoutinePackage) (rid : String)
    (reg : ToolRegistry) (dir : String) (i : Nat) (step : Step)
    (rest : List (Nat × Step)) (ctx : Ctx) (store : Store) :
    execSteps pkg rid reg dir none ((i, step) :: rest) ctx store =
      match stepGuard step ctx pkg with
      | .error exc =>
          (⟨rid, .failed, .null,
            some ⟨step.id, "ConditionError",
              "Error evaluating " ++ "\x27" ++ "when" ++ "\x27" ++ " condition: " ++ exc.msg,
              ctx⟩, none, []⟩, store, [])
      | .ok cond =>
        if !cond then execSteps pkg rid reg dir none rest ctx store
        else
          match _run_step step ctx pkg reg store dir rid i with
          | .ok ctx' effs =>
              prependEffs (.attempt i step.id :: effs)
                (execSteps pkg rid reg dir none rest ctx' store)
          | .result r store' effs => (r, store', .attempt i step.id :: effs)
          | .err exc effs =>
              (⟨rid, .failed, .null,
                some ⟨step.id, exc.ty, exc.msg, ctx⟩, none, []⟩,
               store, .attempt i step.id :: effs) := by
  cases hw : step.when with
  | none =>
    simp only [execSteps, stepGuard, hw]
    rcases hr : _run_step step ctx pkg reg store dir rid i with ⟨c, e⟩ | ⟨r, s, e⟩ | ⟨ex, e⟩ <;> simp
  | some w =>
    cases hs : safe_eval w (_build_eval_context ctx pkg) with
    | error e => simp [execSteps, stepGuard, hw, hs]
    | ok v =>
      simp only [execSteps, stepGuard, hw, hs]
      by_cases hv : evTruthy v
      · simp only [hv, Bool.not_true, if_false]
        rcases hr : _run_step step ctx pkg reg store dir rid i with ⟨c, e⟩ | ⟨r, s, e⟩ | ⟨ex, e⟩ <;> simp
      · simp [hv]

/-- `_run_step` reads its store argument only to thread it into the
outcome: the `.ok` and `.err` outcomes and the result/effects of a
`.result` outcome are store-independent. -/
theorem run_step_store_invariance (step : Step) (context : Ctx)
    (pkg : RoutinePackage) (reg : ToolRegistry) (dir rid : String) (i : Nat)
    (s1 s2 : Store) :
    (∀ c e, _run_step step context pkg reg s1 dir rid i = .ok c e →
      _run_step step context pkg reg s2 dir rid i = .ok c e) ∧
    (∀ ex e, _run_step step context pkg reg s1 dir rid i = .err ex e →
      _run_step step context pkg reg s2 dir rid i = .err ex e) ∧
    (∀ r st e, _run_step step context pkg reg s1 dir rid i = .result r st e →
      ∃ st2, _run_step step context pkg reg s2 dir rid i = .result r st2 e) := by
  unfold _run_step
  cases hty : step.type
  case tool_call =>
    exact ⟨fun c e h => h, fun ex e h => h, fun r st e h => ⟨st, h⟩⟩
  case udf_call =>
    exact ⟨fun c e h => h, fun ex e h => h, fun r st e h => ⟨st, h⟩⟩
  case assert_ =>
    exact ⟨fun c e h => h, fun ex e h => h, fun r st e h => ⟨st, h⟩⟩
  case prompt_user =>
    refine ⟨fun c e h => by simp at h, fun ex e h => by simp at h, ?_⟩
    intro r st e h
    simp only [StepExec.result.injEq] at h
    obtain ⟨h1, h2, h3⟩ := h
    exact ⟨_, by rw [← h1, ← h3]⟩
  case return_ =>
    cases hr : render_value step.value context pkg.udf_module with
    | error e =>
      exact ⟨fun c e h => h, fun ex e h => h, fun r st e h => by simp at h⟩
    | ok output =>
      refine ⟨fun c e h => by simp at h, fun ex e h => by simp at h, ?_⟩
      intro r st e h
      simp only [StepExec.result.injEq] at h
      obtain ⟨h1, h2, h3⟩ := h
      exact ⟨_, by rw [← h1, ← h3]⟩

/-- A `.result` outcome of `_run_step` is either a prompt pause — the
`needs_input` result carrying the pending step id and current context,
with a snapshot saved under the run id — or a `return` with status `ok`. -/
theorem run_step_result_classify (step : Step) (ctx : Ctx)
    (pkg : RoutinePackage) (reg : ToolRegistry) (store : Store)
    (dir rid : String) (i : Nat) (r : RunResult) (s0 : Store) (e : List Effect)
    (h : _run_step step ctx pkg reg store dir rid i = .result r s0 e) :
    (step.type = .prompt_user ∧
      r = ⟨rid, .needs_input, .null, none, some step.id, ctx⟩ ∧
      s0 = storeSave store ⟨rid, dir, i, ctx, step.id⟩ ∧
      e = [.storeSaveOp rid]) ∨
    (step.type = .return_ ∧ r.status = .ok) := by
  cases hty : step.type
  case tool_call =>
    simp only [_run_step, hty] at h
    rcases hx : _exec_tool_call step ctx pkg reg with ⟨res, effs2⟩
    rw [hx] at h
    cases res with
    | error e2 => simp at h
    | ok result => by_cases hsv : saveTruthy step.save_as <;> simp [hsv] at h
  case udf_call =>
    simp only [_run_step, hty] at h
    rcases hx : _exec_udf_call step ctx pkg with ⟨res, effs2⟩
    rw [hx] at h
    cases res with
    | error e2 => simp at h
    | ok result => by_cases hsv : saveTruthy step.save_as <;> simp [hsv] at h
  case assert_ =>
    simp only [_run_step, hty] at h
    cases hx : _exec_assert step ctx pkg with
    | error e2 => rw [hx] at h; simp at h
    | ok v => rw [hx] at h; simp at h
  case prompt_user =>
    simp only [_run_step, hty, StepExec.result.injEq] at h
    exact Or.inl ⟨rfl, h.1.symm, h.2.1.symm, h.2.2.symm⟩
  case return_ =>
    simp only [_run_step, hty] at h
    split at h
    · simp at h
    · simp only [StepExec.result.injEq] at h
      exact Or.inr ⟨rfl, by rw [← h.1]⟩

/-- With no recovery callback, the `RunResult` and effect components of
the step loop do not depend on the incoming store. -/
theorem execSteps_store_indep (pkg : RoutinePackage) (rid : String)
    (reg : ToolRegistry) (dir : String) :
    ∀ (items : List (Nat × Step)) (ctx : Ctx) (s1 s2 : Store),
      ((execSteps pkg rid reg dir none items ctx s1).1,
       (execSteps pkg rid reg dir none items ctx s1).2.2) =
      ((execSteps pkg rid reg dir none items ctx s2).1,
       (execSteps pkg rid reg dir none items ctx s2).2.2) := by
  intro items
  induction items with
  | nil => intro ctx s1 s2; rfl
  | cons p rest ih =>
    rcases p with ⟨i, step⟩
    intro ctx s1 s2
    rw [execSteps_cons_none, execSteps_cons_none]
    cases hg : stepGuard step ctx pkg with
    | error exc => simp
    | ok cond =>
      by_cases hc : cond
      · simp only [hc, Bool.not_true, Bool.false_eq_true, if_false]
        rcases hr1 : _run_step step ctx pkg reg s1 dir rid i with
          ⟨c, e⟩ | ⟨r0, st0, e⟩ | ⟨ex, e⟩
        · have hr2 := (run_step_store_invariance step ctx pkg reg dir rid i s1 s2).1
            c e hr1
          rw [hr2]
          have hih := ih c s1 s2
          simp only [Prod.mk.injEq] at hih
          simp [prependEffs, hih.1, hih.2]
        · obtain ⟨st2, hr2⟩ :=
            (run_step_store_invariance step ctx pkg reg dir rid i s1 s2).2.2
              r0 st0 e hr1
          rw [hr2]
        · have hr2 := (run_step_store_invariance step ctx pkg reg dir rid i s1 s2).2.1
            ex e hr1
          rw [hr2]
      · have hc' : cond = false := Bool.of_not_eq_true hc
        simp only [hc', Bool.not_false, if_true]
        exact ih ctx s1 s2

/-- When the answer map answers none of the remaining steps, the inline
run coincides with the plain loop without recovery callback. -/
theorem execStepsInline_eq_plain (pkg : RoutinePackage) (rid : String)
    (reg : ToolRegistry) (dir : String) (amap : String → Option Value) :
    ∀ (items : List (Nat × Step)) (ctx : Ctx) (store : Store),
      (∀ p ∈ items, amap p.2.id = none) →
      execStepsInline pkg rid reg dir amap items ctx store =
        execSteps pkg rid reg dir none items ctx store := by
  intro items
  induction items with
  | nil => intro ctx store h; rfl
  | cons p rest ih =>
    rcases p with ⟨i, step⟩
    intro ctx store h
    have hstep : amap step.id = none := h (i, step) (by simp)
    have hrest : ∀ p ∈ rest, amap p.2.id = none :=
      fun p hp => h p (List.mem_cons_of_mem _ hp)
    rw [execSteps_cons_none]
    simp only [execStepsInline]
    cases hg : stepGuard step ctx pkg with
    | error exc => simp
    | ok cond =>
      have ihr : ∀ c, execStepsInline pkg rid reg dir amap rest c store =
          execSteps pkg rid reg dir none rest c store :=
        fun c => ih c store hrest
      by_cases hc : cond
      · simp only [hc, Bool.not_true, Bool.false_eq_true, if_false]
        cases hty : step.type <;>
          simp only [hstep] <;>
          rcases hr : _run_step step ctx pkg reg store dir rid i with
            ⟨c, e⟩ | ⟨r0, st0, e⟩ | ⟨ex, e⟩ <;>
          simp [ihr, hr]
      · have hc' : cond = false := Bool.of_not_eq_true hc
        simp only [hc', Bool.not_false, if_true]
        exact ih ctx store hrest

/-- Peeling one element off a dropped enumeration. -/
theorem enum_drop_cons (steps : List Step) (k i : Nat) (step : Step)
    (rest : List (Nat × Step))
    (h : steps.enum.drop k = (i, step) :: rest) :
    i = k ∧ steps.get? k = some step ∧ rest = steps.enum.drop (k + 1) := by
  have hh : steps.enum.get? k = some (i, step) := by
    rw [List.get?_eq_getElem?, ← List.head?_drop, h]
    rfl
  rw [List.enum_get?] at hh
  cases hq : steps.get? k with
  | none => rw [hq] at hh; cases hh
  | some s' =>
    rw [hq] at hh
    simp only [Option.map_some', Option.some.injEq, Prod.mk.injEq] at hh
    refine ⟨hh.1.symm, by rw [hh.2], ?_⟩
    have ht : (steps.enum.drop k).tail = steps.enum.drop (k + 1) := by
      rw [List.tail_drop]
    rw [h, List.tail_cons] at ht
    exact ht

/-- In a step list with nodup ids, positions holding equal ids agree. -/
theorem nodup_id_unique (steps : List Step)
    (hnd : (steps.map Step.id).Nodup) (j m : Nat) (a b : Step)
    (hja : steps.get? j = some a) (hmb : steps.get? m = some b)
    (hid : a.id = b.id) : j = m := by
  have hj' : (steps.map Step.id).get? j = some a.id := by
    rw [List.get?_map, hja]
    rfl
  have hm' : (steps.map Step.id).get? m = some b.id := by
    rw [List.get?_map, hmb]
    rfl
  have hjl : j < (steps.map Step.id).length := by
    by_contra hc
    push_neg at hc
    rw [List.get?_eq_none.mpr hc] at hj'
    cases hj'
  exact List.get?_inj hjl hnd (by rw [hj', hm', hid])

/-- `find?` returns the unique element satisfying the predicate. -/
theorem find_unique {α : Type} (p : α → Bool) :
    ∀ (l : List α) (a : α), a ∈ l → p a = true →
      (∀ b ∈ l, p b = true → b = a) → l.find? p = some a := by
  intro l
  induction l with
  | nil => intro a ha; cases ha
  | cons c cs ih =>
    intro a ha hpa huniq
    by_cases hc : p c = true
    · rw [List.find?_cons_of_pos _ hc]
      rw [huniq c (by simp) hc]
    · rw [List.find?_cons_of_neg _ hc]
      have ha' : a ∈ cs := by
        rcases List.mem_cons.mp ha with h | h
        · exact absurd (h ▸ hpa) hc
        · exact h
      exact ih a ha' hpa (fun b hb => huniq b (List.mem_cons_of_mem _ hb))

/-- With nodup ids, looking a step up by its id finds that step. -/
theorem find_by_id (steps : List Step) (hnd : (steps.map Step.id).Nodup)
    (j : Nat) (step : Step) (hj : steps.get? j = some step) :
    steps.find? (fun s => s.id = step.id) = some step := by
  apply find_unique
  · exact List.get?_mem hj
  · simp
  · intro b hb hpb
    obtain ⟨m, hm⟩ := List.mem_iff_get?.mp hb
    have hbid : b.id = step.id := by simpa using hpb
    have := nodup_id_unique steps hnd m j b step hm hj hbid
    rw [this, hj] at hm
    injection hm with hm
    exact hm.symm

/-- Steps after position `j` have ids different from the step at `j`. -/
theorem drop_enum_id_ne (steps : List Step)
    (hnd : (steps.map Step.id).Nodup) (j : Nat) (step : Step)
    (hj : steps.get? j = some step) :
    ∀ p ∈ steps.enum.drop (j + 1), p.2.id ≠ step.id := by
  intro p hp
  obtain ⟨m, hm⟩ := List.mem_iff_get?.mp hp
  rw [List.get?_drop, List.enum_get?] at hm
  cases hq : steps.get? (j + 1 + m) with
  | none => rw [hq] at hm; cases hm
  | some s' =>
    rw [hq] at hm
    simp only [Option.map_some'] at hm
    injection hm with hm1
    intro hid
    have hps : p.2 = s' := by rw [← hm1]
    have := nodup_id_unique steps hnd (j + 1 + m) j s' step hq hj (hps ▸ hid)
    omega

theorem prependEffs_fst (effs : List Effect)
    (x : RunResult × Store × List Effect) :
    (prependEffs effs x).1 = x.1 := by
  rcases x with ⟨a, b, c⟩
  rfl

theorem execSteps_fst_store (pkg : RoutinePackage) (rid : String)
    (reg : ToolRegistry) (dir : String) (items : List (Nat × Step))
    (ctx : Ctx) (s2 s3 : Store) :
    (execSteps pkg rid reg dir none items ctx s2).1 =
      (execSteps pkg rid reg dir none items ctx s3).1 := by
  have h := execSteps_store_indep pkg rid reg dir items ctx s2 s3
  simp only [Prod.mk.injEq] at h
  exact h.1

/-- The pause/resume induction: a `needs_input` outcome of the plain loop
comes from a `prompt.user` step at some position `j ≥ k`, carries that
step's id and the context at the pause, saves exactly that snapshot — and
continuing past `j` with the answers bound coincides (in the result
component) with the inline-answered run of the same suffix. -/
theorem c2_aux (pkg : RoutinePackage) (rid : String) (reg : ToolRegistry)
    (dir : String) (hnd : (pkg.routine.steps.map Step.id).Nodup) :
    ∀ (items : List (Nat × Step)) (k : Nat) (ctx : Ctx) (store : Store)
      (r : RunResult) (st1 : Store) (effs : List Effect),
      items = pkg.routine.steps.enum.drop k →
      execSteps pkg rid reg dir none items ctx store = (r, st1, effs) →
      r.status = .needs_input →
      ∃ j step,
        k ≤ j ∧ pkg.routine.steps.get? j = some step ∧
        step.type = .prompt_user ∧
        r = ⟨rid, .needs_input, .null, none, some step.id, r.context⟩ ∧
        st1 = storeSave store ⟨rid, dir, j, r.context, step.id⟩ ∧
        ∀ (binds : Value) (s2 s3 : Store),
          (execStepsInline pkg rid reg dir
              (fun sid => if sid = step.id then some binds else none)
              items ctx s2).1 =
          (execSteps pkg rid reg dir none
              (pkg.routine.steps.enum.drop (j + 1))
              (if saveTruthy step.save_as then
                 ctxSet r.context (step.save_as.getD "") binds
               else ctxSet r.context "_prompt_answers" binds) s3).1 := by
  intro items
  induction items with
  | nil =>
    intro k ctx store r st1 effs hitems hrun hst
    simp only [execSteps] at hrun
    injection hrun with h1 h23
    rw [← h1] at hst
    simp at hst
  | cons p rest ih =>
    rcases p with ⟨i, step⟩
    intro k ctx store r st1 effs hitems hrun hst
    obtain ⟨hik, hk, hrest⟩ :=
      enum_drop_cons pkg.routine.steps k i step rest hitems.symm
    subst hik
    rw [execSteps_cons_none] at hrun
    split at hrun
    · rename_i exc heq
      injection hrun with h1 h23
      rw [← h1] at hst
      simp at hst
    · rename_i cond heq
      cases cond with
      | false =>
        simp only [Bool.not_false, if_true] at hrun
        obtain ⟨j, stepj, hkj, hgj, htyj, hrj, hstj, hinl⟩ :=
          ih (i + 1) ctx store r st1 effs hrest hrun hst
        refine ⟨j, stepj, by omega, hgj, htyj, hrj, hstj, ?_⟩
        intro binds s2 s3
        simp only [execStepsInline, heq, Bool.not_false, if_true]
        exact hinl binds s2 s3
      | true =>
        simp only [Bool.not_true, Bool.false_eq_true, if_false] at hrun
        rcases hr : _run_step step ctx pkg reg store dir rid i with
          ⟨c, e⟩ | ⟨r0, st0, e⟩ | ⟨ex, e⟩
        · rw [hr] at hrun
          rcases hrec : execSteps pkg rid reg dir none rest c store with ⟨r2, st2, e2⟩
          simp only [hrec, prependEffs, Prod.mk.injEq] at hrun
          obtain ⟨hq1, hq2, hq3⟩ := hrun
          have hst2 : r2.status = .needs_input := by rw [hq1]; exact hst
          obtain ⟨j, stepj, hkj, hgj, htyj, hrj, hstj, hinl⟩ :=
            ih (i + 1) c store r2 st2 e2 hrest hrec hst2
          have hne : step.id ≠ stepj.id := by
            intro he
            have := nodup_id_unique pkg.routine.steps hnd i j step stepj hk hgj he
            omega
          refine ⟨j, stepj, by omega, hgj, htyj, ?_, ?_, ?_⟩
          · rw [← hq1]
            exact hrj
          · rw [← hq2, ← hq1]
            exact hstj
          · intro binds s2 s3
            rw [← hq1]
            have hamap : (fun sid => if sid = stepj.id then some binds else none)
                step.id = (none : Option Value) := by
              simp [hne]
            have hr2 := (run_step_store_invariance step ctx pkg reg dir rid i
              store s2).1 c e hr
            simp only [execStepsInline, heq, Bool.not_true, Bool.false_eq_true,
              if_false]
            cases hty2 : step.type <;>
              simp only [hty2, hamap] <;>
              rw [hr2] <;>
              simp only [prependEffs_fst] <;>
              exact hinl binds s2 s3
        · rw [hr] at hrun
          simp only [Prod.mk.injEq] at hrun
          obtain ⟨hq1, hq2, hq3⟩ := hrun
          rcases run_step_result_classify step ctx pkg reg store dir rid i
              r0 st0 e hr with
            ⟨htyp, hr0, hst0, he⟩ | ⟨htyp, hstat⟩
          · have hctx : r.context = ctx := by rw [← hq1, hr0]
            refine ⟨i, step, le_refl i, hk, htyp, ?_, ?_, ?_⟩
            · rw [hctx, ← hq1, hr0]
            · rw [hctx, ← hq2, hst0]
            · intro binds s2 s3
              rw [hctx]
              have hamap2 : (if step.id = step.id then some binds else none) =
                  some binds := by
                simp
              simp only [execStepsInline, heq, Bool.not_true, Bool.false_eq_true,
                if_false]
              rw [← hrest]
              split
              · rename_i binds2 hty2 ha2
                have hb : binds = binds2 := by simpa using ha2
                subst hb
                have hmiss : ∀ p ∈ rest,
                    (fun sid => if sid = step.id then some binds else none) p.2.id =
                      none := by
                  intro p hp
                  have hnp := drop_enum_id_ne pkg.routine.steps hnd i step hk p
                    (hrest ▸ hp)
                  simp [hnp]
                rw [execStepsInline_eq_plain pkg rid reg dir _ rest _ s2 hmiss]
                by_cases hsv : saveTruthy step.save_as
                · simp only [hsv, if_true]
                  exact execSteps_fst_store pkg rid reg dir rest _ s2 s3
                · have hsv' : saveTruthy step.save_as = false :=
                    Bool.of_not_eq_true hsv
                  simp only [hsv', Bool.false_eq_true, if_false]
                  exact execSteps_fst_store pkg rid reg dir rest _ s2 s3
              · rename_i hfall
                exfalso
                exact hfall binds htyp (by simp)
          · rw [← hq1] at hst
            rw [hstat] at hst
            simp at hst
        · rw [hr] at hrun
          simp only [Prod.mk.injEq] at hrun
          obtain ⟨hq1, hq2, hq3⟩ := hrun
          rw [← hq1] at hst
          simp at hst

/-- `resume_run` on a loadable snapshot whose pending step is found and
is a prompt step with valid answers: bind the answers, delete the
snapshot, continue at `step_index + 1`. -/
theorem resume_run_reduces (dirs : DirEnv) (rid : String)
    (answers : PromptAnswers) (store1 : Store) (reg : ToolRegistry)
    (routine_dir : String) (j : Nat) (pctx : Ctx) (sid : String)
    (pkg : RoutinePackage) (step : Step) (prompt : PromptDef)
    (hload : storeLoad store1 rid = some ⟨rid, routine_dir, j, pctx, sid⟩)
    (hpkg : dirs routine_dir = .ok pkg)
    (hfind : pkg.routine.steps.find? (fun s => s.id = sid) = some step)
    (hprompt : step.prompt = some prompt)
    (hval : answers.validate_against prompt = []) :
    resume_run dirs rid answers store1 (some reg) =
      .ok (prependEffs [.storeDeleteOp rid]
        (_execute_steps pkg rid
          (if saveTruthy step.save_as then
             ctxSet pctx (step.save_as.getD "") (.obj answers.values)
           else ctxSet pctx "_prompt_answers" (.obj answers.values))
          (j + 1) reg (storeDelete store1 rid) routine_dir)) := by
  unfold resume_run
  rw [hload]
  simp only [hpkg, Except.bind, bind, hfind, hprompt, hval, List.isEmpty_nil,
    Bool.not_true, Bool.false_eq_true, if_false, Option.getD_some]

/-- C2.  Pause–resume round trip: a `run_routine` outcome with status
`needs_input` comes from a reached `prompt.user` step; the result carries
that step's id as `pending_prompt` and the store holds the snapshot
`⟨run_id, routine_dir, step index, paused context, step id⟩`.  Resuming
with valid answers and the same registry binds the answers (into a truthy
`save_as`, else `_prompt_answers`), deletes the snapshot and continues at
`step_index + 1`; the continuation's result equals the result of the run
in which the prompt had been answered inline. -/
theorem c2_pause_resume_round_trip
    (dirs : DirEnv) (routine_dir rid : String) (pkg : RoutinePackage)
    (input : Ctx) (reg : ToolRegistry) (store : Store)
    (r : RunResult) (store1 : Store) (effs : List Effect)
    (answers : PromptAnswers) (prompt : PromptDef)
    (hpkg : dirs routine_dir = .ok pkg)
    (hnd : (pkg.routine.steps.map Step.id).Nodup)
    (hrun : run_routine dirs routine_dir input (some reg) store rid none =
      .ok (r, store1, effs))
    (hst : r.status = .needs_input) :
    ∃ j step,
      pkg.routine.steps.get? j = some step ∧
      step.type = .prompt_user ∧
      r.pending_prompt = some step.id ∧
      storeLoad store1 rid = some ⟨rid, routine_dir, j, r.context, step.id⟩ ∧
      (step.prompt = some prompt →
       answers.validate_against prompt = [] →
       resume_run dirs rid answers store1 (some reg) =
         .ok (prependEffs [.storeDeleteOp rid]
           (_execute_steps pkg rid
             (if saveTruthy step.save_as then
                ctxSet r.context (step.save_as.getD "") (.obj answers.values)
              else ctxSet r.context "_prompt_answers" (.obj answers.values))
             (j + 1) reg (storeDelete store1 rid) routine_dir)) ∧
       (_execute_steps pkg rid
           (if saveTruthy step.save_as then
              ctxSet r.context (step.save_as.getD "") (.obj answers.values)
            else ctxSet r.context "_prompt_answers" (.obj answers.values))
           (j + 1) reg (storeDelete store1 rid) routine_dir).1 =
         (execStepsInline pkg rid reg routine_dir
            (fun sid => if sid = step.id then some (.obj answers.values) else none)
            pkg.routine.steps.enum input store).1) := by
  simp only [run_routine, hpkg, Except.bind, bind, Option.getD_some,
    Except.ok.injEq] at hrun
  simp only [_execute_steps] at hrun
  obtain ⟨j, step, hkj, hgj, hty, hrj, hstj, hinl⟩ :=
    c2_aux pkg rid reg routine_dir hnd (pkg.routine.steps.enum.drop 0) 0
      input store r store1 effs rfl hrun hst
  have hload : storeLoad store1 rid =
      some ⟨rid, routine_dir, j, r.context, step.id⟩ := by
    rw [hstj]
    unfold storeLoad storeSave
    rw [dictSet_lookup]
    simp
  refine ⟨j, step, hgj, hty, ?_, hload, ?_⟩
  · rw [hrj]
  · intro hprompt hval
    constructor
    · exact resume_run_reduces dirs rid answers store1 reg routine_dir j
        r.context step.id pkg step prompt hload hpkg
        (find_by_id pkg.routine.steps hnd j step hgj) hprompt hval
    · have h1 := hinl (.obj answers.values) store (storeDelete store1 rid)
      simp only [List.drop_zero] at h1
      simp only [_execute_steps]
      exact h1.symm

/-- Witness fixtures: a two-step routine (prompt with a truthy `save_as`,
then a `return` step), paused at the prompt and resumed with empty valid
answers. -/
def c2Step1 : Step :=
  { id := "ask", type := .prompt_user,
    prompt := some { message := "Name?", fields := [] },
    save_as := some "ans" }

def c2Step2 : Step :=
  { id := "fin", type := .return_, value := .int 5 }

def c2Pkg : RoutinePackage :=
  ⟨{ name := "demo", steps := [c2Step1, c2Step2] }, none⟩

def c2Dirs : DirEnv := fun _ => .ok c2Pkg

def c2R : RunResult := ⟨"r", .needs_input, .null, none, some "ask", []⟩

def c2Store1 : Store := [("r", ⟨"r", "d", 0, [], "ask"⟩)]

def c2Prompt : PromptDef := { message := "Name?", fields := [] }

theorem c2_pause_resume_round_trip_witness :
    ∃ j step,
      c2Pkg.routine.steps.get? j = some step ∧
      step.type = .prompt_user ∧
      c2R.pending_prompt = some step.id ∧
      storeLoad c2Store1 "r" = some ⟨"r", "d", j, c2R.context, step.id⟩ ∧
      (step.prompt = some c2Prompt →
       PromptAnswers.validate_against ⟨[]⟩ c2Prompt = [] →
       resume_run c2Dirs "r" ⟨[]⟩ c2Store1 (some []) =
         .ok (prependEffs [.storeDeleteOp "r"]
           (_execute_steps c2Pkg "r"
             (if saveTruthy step.save_as then
                ctxSet c2R.context (step.save_as.getD "") (.obj ([] : List (String × Value)))
              else ctxSet c2R.context "_prompt_answers" (.obj ([] : List (String × Value))))
             (j + 1) [] (storeDelete c2Store1 "r") "d")) ∧
       (_execute_steps c2Pkg "r"
           (if saveTruthy step.save_as then
              ctxSet c2R.context (step.save_as.getD "") (.obj ([] : List (String × Value)))
            else ctxSet c2R.context "_prompt_answers" (.obj ([] : List (String × Value))))
           (j + 1) [] (storeDelete c2Store1 "r") "d").1 =
         (execStepsInline c2Pkg "r" [] "d"
            (fun sid => if sid = step.id then some (.obj ([] : List (String × Value))) else none)
            c2Pkg.routine.steps.enum [] []).1) :=
  c2_pause_resume_round_trip c2Dirs "d" "r" c2Pkg [] [] [] c2R c2Store1
    [.attempt 0 "ask", .storeSaveOp "r"] ⟨[]⟩ c2Prompt rfl (by decide)
    (by rfl) rfl

end EM
